import Mathlib

/-!
# Verification of the HuMo audio attention-control ComfyUI nodes

Shallow embedding of the repository's three node procedures
(`HuMoAudioAttentionControlV4.apply_attention_control`,
`HuMoAudioAttentionBoostV3.boost_attention`,
`HuMoLipsyncSuppressAttn.suppress`) and the block-range parsers they use,
together with theorems checking the natural-language specification
against this embedding.

Modelling conventions:
* Python strings are Lean `String`s; the character-level operations the
  code uses (`str.strip`, `str.split(sep)` for a one-character separator,
  `int(s)`, membership `c in s`) are embedded as structurally recursive
  functions on `List Char` so that they evaluate inside the kernel.
  `int()` is modelled for ASCII decimal literals (optional surrounding
  whitespace, optional sign, digits with single internal underscores),
  which covers every string this repository can feed it.
* Python exceptions are `Except String`; a raised exception is `.error`.
  When an exception propagates out of a procedure, mutations the procedure
  made before raising are not tracked (no claim observes them).
* Tensors are opaque rationals; scale factors (`FLOAT` widgets) are `ℚ`.
* `register_forward_hook` is modelled by a state carrying the list of
  currently attached hooks and a fresh-id counter; `handle.remove()`
  detaches the hook, and raises exactly when the host has invalidated the
  handle (the `invalid` field), which is the failure mode the sources'
  `try/except` guards against.
-/

/-- Equality of `Except` values is decidable when both components' are;
used only to let `decide` evaluate the embedding on concrete inputs. -/
instance {ε α : Type} [DecidableEq ε] [DecidableEq α] :
    DecidableEq (Except ε α) := fun x y =>
  match x, y with
  | .error a, .error b =>
      if h : a = b then .isTrue (by rw [h]) else .isFalse (by simp [h])
  | .ok a, .ok b =>
      if h : a = b then .isTrue (by rw [h]) else .isFalse (by simp [h])
  | .error _, .ok _ => .isFalse (by simp)
  | .ok _, .error _ => .isFalse (by simp)

/-! ## Python string primitives -/

/-- Python `str.strip()`: drop whitespace from both ends. -/
def pyStrip (l : List Char) : List Char :=
  ((l.dropWhile Char.isWhitespace).reverse.dropWhile Char.isWhitespace).reverse

/-- Auxiliary for `pySplit`: `acc` is the current piece, reversed. -/
def pySplitAux (sep : Char) : List Char → List Char → List (List Char)
  | [], acc => [acc.reverse]
  | c :: cs, acc =>
      if c = sep then acc.reverse :: pySplitAux sep cs []
      else pySplitAux sep cs (c :: acc)

/-- Python `str.split(sep)` for a one-character separator `sep`.
Note `"".split(sep) = [""]`, matching Python. -/
def pySplit (sep : Char) (l : List Char) : List (List Char) :=
  pySplitAux sep l []

/-- Digit-sequence tail of a Python decimal int literal: digits with
single underscores allowed between digits, nothing else. -/
def pyIntTail : List Char → Bool
  | [] => true
  | [c] => c.isDigit
  | c :: d :: rest =>
      if c = '_' then d.isDigit && pyIntTail (d :: rest)
      else c.isDigit && pyIntTail (d :: rest)

/-- A valid (unsigned) Python decimal int literal body: nonempty, starts
with a digit, and satisfies the underscore rules. -/
def pyIntBody : List Char → Bool
  | [] => false
  | c :: rest => c.isDigit && pyIntTail (c :: rest)

/-- Numeric value of a digit/underscore sequence (underscores skipped). -/
def pyDigitsVal (l : List Char) : ℕ :=
  (l.filter (fun c => c ≠ '_')).foldl (fun a c => 10 * a + (c.toNat - 48)) 0

/-- Python `int(s)` on a character list: strips whitespace, reads an
optional sign and a decimal literal; anything else raises `ValueError`. -/
def pyIntC (l : List Char) : Except String ℤ :=
  let t := pyStrip l
  match t with
  | '-' :: rest => if pyIntBody rest then .ok (-(pyDigitsVal rest : ℤ)) else .error "ValueError"
  | '+' :: rest => if pyIntBody rest then .ok (pyDigitsVal rest : ℤ) else .error "ValueError"
  | rest => if pyIntBody rest then .ok (pyDigitsVal rest : ℤ) else .error "ValueError"

/-- Python `range(a, b)` as a list of integers. -/
def pyRange (a b : ℤ) : List ℤ :=
  (List.range (b - a).toNat).map (fun (i : ℕ) => a + (i : ℤ))

/-- Python `sorted(set(l))`: the distinct elements in ascending order. -/
def pySortedSet (l : List ℤ) : List ℤ :=
  List.insertionSort (· ≤ ·) l.dedup

/-! ## The block-range parsers

Both node classes parse a comma-separated range string with the same
per-segment logic (`HuMoAudioAttentionControlV4.parse_block_range` lines
200-208 of `src/nodes.py`, and the custom branch of
`HuMoAudioAttentionBoostV3.parse_block_range` lines 189-198 of
`src/comfyui-humo-audio-motion/nodes.py`): strip the segment, if it
contains a dash split on the dash into exactly two pieces and extend with
the inclusive range, otherwise convert the single integer.  V4 converts
via `int(start), int(end)` after an unpacking `split('-')`; V3 uses
`start, end = map(int, part.split('-'))`; both raise on a piece count
other than two and on non-numeric pieces, so one embedding serves both.
-/

/-- Process one comma-separated segment (already including the strip). -/
def parsePart (p : List Char) : Except String (List ℤ) :=
  let part := pyStrip p
  if '-' ∈ part then
    match pySplit '-' part with
    | [a, b] =>
        match pyIntC a with
        | .error e => .error e
        | .ok av =>
            match pyIntC b with
            | .error e => .error e
            | .ok bv => .ok (pyRange av (bv + 1))
    | _ => .error "ValueError"
  else
    match pyIntC part with
    | .error e => .error e
    | .ok n => .ok [n]

/-- Sequentially process segments, concatenating their blocks; the first
exception propagates (Python's `for` loop raises out). -/
def parseParts : List (List Char) → Except String (List ℤ)
  | [] => .ok []
  | p :: ps =>
      match parsePart p with
      | .error e => .error e
      | .ok ns =>
          match parseParts ps with
          | .error e => .error e
          | .ok rest => .ok (ns ++ rest)

/-- The shared custom-range string parser: split on commas, process each
segment, then `sorted(set(blocks))`. -/
def parseRangeString (s : String) : Except String (List ℤ) :=
  match parseParts (pySplit ',' s.data) with
  | .error e => .error e
  | .ok blocks => .ok (pySortedSet blocks)

namespace HuMoAudioAttentionControlV4

/-- The V4 preset table (`range_map` with `.get(preset, "0-10")`). -/
def rangeMap (preset : String) : String :=
  if preset = "early_0-5_structure" then "0-5"
  else if preset = "early_0-10_body" then "0-10"
  else if preset = "mid_6-24_lipsync" then "6-24"
  else if preset = "mid_10-25_gestures" then "10-25"
  else if preset = "late_25-39_texture" then "25-39"
  else if preset = "most_0-30_aggressive" then "0-30"
  else if preset = "all_0-39_maximum" then "0-39"
  else "0-10"

/-- `HuMoAudioAttentionControlV4.parse_block_range` (src/nodes.py 184-208):
presets are resolved to a range string and fed through the same
string-parsing loop as custom input. -/
def parse_block_range (preset : String) (custom_range : String) :
    Except String (List ℤ) :=
  parseRangeString (if preset = "custom" then custom_range else rangeMap preset)

end HuMoAudioAttentionControlV4

namespace HuMoAudioAttentionBoostV3

/-- The V3 preset table (`ranges` with `.get(preset, list(range(0, 11)))`). -/
def presetRanges (preset : String) : List ℤ :=
  if preset = "early_0-10_body" then pyRange 0 11
  else if preset = "early_mid_0-20_full_body" then pyRange 0 21
  else if preset = "mid_10-25_gestures" then pyRange 10 26
  else if preset = "most_0-30_aggressive" then pyRange 0 31
  else if preset = "all_0-39_maximum" then pyRange 0 40
  else pyRange 0 11

/-- `HuMoAudioAttentionBoostV3.parse_block_range`
(src/comfyui-humo-audio-motion/nodes.py 187-208): the custom string path
is taken only when the preset is `"custom"` and the custom range is
truthy (not `None`, not empty); otherwise the preset table applies. -/
def parse_block_range (preset : String) (custom_range : Option String) :
    Except String (List ℤ) :=
  if preset = "custom" ∧ custom_range.getD "" ≠ "" then
    parseRangeString (custom_range.getD "")
  else .ok (presetRanges preset)

end HuMoAudioAttentionBoostV3

/-! ## Forward-hook callbacks

The hook factories close over a scale factor and return a callback
`hook(module, input, output)`; only `output` matters.  A module output is
`None`, a tensor, or a tuple of tensors; tensors are opaque rationals.
Python `output * scale` with a float `scale` is tensor scaling for a
tensor and a `TypeError` for a tuple or `None` (a sequence or `None`
cannot be multiplied by a float).
-/

/-- A module output as the hooks can receive it. -/
inductive PyVal where
  | noneV : PyVal
  | tensor (x : ℚ) : PyVal
  | tup (xs : List ℚ) : PyVal
deriving DecidableEq

/-- Python `output * scale` for a float `scale`. -/
def pyMulScale (v : PyVal) (f : ℚ) : Except String PyVal :=
  match v with
  | .tensor x => .ok (.tensor (x * f))
  | .tup _ => .error "TypeError"
  | .noneV => .error "TypeError"

namespace HuMoAudioAttentionControlV4

/-- `create_scale_hook` (src/nodes.py 210-214): the callback is
`return output * scale`, with no `None` or tuple handling. -/
def create_scale_hook (scale : ℚ) : PyVal → Except String PyVal :=
  fun output => pyMulScale output scale

end HuMoAudioAttentionControlV4

namespace HuMoAudioAttentionBoostV3

/-- `create_boost_hook` (src/comfyui-humo-audio-motion/nodes.py 210-232):
the callback passes `None` through, scales index 0 of a tuple keeping the
rest (`(output[0] * f,) + output[1:]`, an `IndexError` on an empty
tuple), and otherwise returns `output * boost_factor`. -/
def create_boost_hook (boost_factor : ℚ) : PyVal → Except String PyVal :=
  fun output =>
    match output with
    | .noneV => .ok .noneV
    | .tup [] => .error "IndexError"
    | .tup (x :: rest) => .ok (.tup (x * boost_factor :: rest))
    | .tensor x => .ok (.tensor (x * boost_factor))

end HuMoAudioAttentionBoostV3

namespace HuMoLipsyncSuppressAttn

/-- `create_suppress_hook` (src/nodes.py 392-395): the callback is
`return output * scale`, identical to V4's `create_scale_hook`. -/
def create_suppress_hook (scale : ℚ) : PyVal → Except String PyVal :=
  fun output => pyMulScale output scale

end HuMoLipsyncSuppressAttn

/-! ## The model handle and hook bookkeeping state

`model.model.diffusion_model.blocks` is an ordered collection of blocks;
each block optionally exposes `audio_cross_attn_wrapper.audio_cross_attn`,
`cross_attn` and `self_attn`, and each of those optionally exposes the
projection sub-objects `q`, `k`, `v`, `o` (all existence checked with
`hasattr`).  Attached hooks live in `active`; the bookkeeping attributes
`_attention_control_hooks`, `_lipsync_suppress_hooks` and
`_attention_boost_hooks` are `Option (List ℕ)` (`none` = attribute not
set, mirroring `hasattr`).  `invalid` holds handle ids whose `remove()`
raises because the host already freed the underlying object.
-/

inductive AttnKind where
  | audio | cross | selfA
deriving DecidableEq

inductive Comp where
  | q | k | v | o
deriving DecidableEq

/-- An attention sub-object: which of `q`, `k`, `v`, `o` exist. -/
structure AttnMod where
  has_q : Bool
  has_k : Bool
  has_v : Bool
  has_o : Bool
deriving DecidableEq

def AttnMod.has (m : AttnMod) : Comp → Bool
  | .q => m.has_q
  | .k => m.has_k
  | .v => m.has_v
  | .o => m.has_o

/-- One transformer block of the diffusion model. -/
structure Block where
  audioAttn : Option AttnMod
  crossAttn : Option AttnMod
  selfAttn : Option AttnMod
deriving DecidableEq

/-- Where a hook is attached: block index, attention kind, component. -/
structure Loc where
  blockIdx : ℕ
  kind : AttnKind
  comp : Comp
deriving DecidableEq

/-- An attached hook: its removable-handle id, site, and scale factor. -/
structure Hook where
  id : ℕ
  loc : Loc
  scale : ℚ
deriving DecidableEq

/-- The model handle as the procedures observe and mutate it. -/
structure PState where
  blocks : List Block
  active : List Hook
  nextId : ℕ
  invalid : List ℕ
  ctrlHooks : Option (List ℕ)
  suppHooks : Option (List ℕ)
  boostHooks : Option (List ℕ)
deriving DecidableEq

/-- `handle.remove()` for each id in turn, each wrapped in
`try/except: pass`: an invalidated handle leaves the list unchanged,
a valid one detaches its hook. -/
def removeIds (invalid : List ℕ) (ids : List ℕ) (hs : List Hook) : List Hook :=
  ids.foldl
    (fun hs i => if i ∈ invalid then hs else hs.filter (fun h => h.id ≠ i)) hs

/-- `handle.remove()` for each id in turn with no exception handler: the
first invalidated handle raises out of the loop. -/
def removeIdsStrict (invalid : List ℕ) : List ℕ → List Hook →
    Except String (List Hook)
  | [], hs => .ok hs
  | i :: rest, hs =>
      if i ∈ invalid then .error "RuntimeError"
      else removeIdsStrict invalid rest (hs.filter (fun h => h.id ≠ i))

/-- A fresh hook per requested site, with ids counting up from `n`. -/
def mkHooks : ℕ → List (Loc × ℚ) → List Hook
  | _, [] => []
  | n, x :: xs => ⟨n, x.1, x.2⟩ :: mkHooks (n + 1) xs

/-- One `register_forward_hook` call: attach a fresh hook at the site and
append the returned handle to the collected `hook_handles`. -/
def registerStep (p : PState × List ℕ) (x : Loc × ℚ) : PState × List ℕ :=
  ({p.1 with active := p.1.active ++ [⟨p.1.nextId, x.1, x.2⟩],
             nextId := p.1.nextId + 1},
   p.2 ++ [p.1.nextId])

/-- `register_forward_hook` for each requested site in turn, collecting
the returned handles (`hook_handles.append(hook)`). -/
def registerAll (s : PState) (ls : List (Loc × ℚ)) : PState × List ℕ :=
  ls.foldl registerStep (s, [])

/-- The twelve per-component scale/boost factors of the two granular
nodes, in the order they appear in the Python signatures:
audio q/k/v/o, text-cross q/k/v/o, self q/k/v/o. -/
structure Scales where
  aq : ℚ
  ak : ℚ
  av : ℚ
  ao : ℚ
  cq : ℚ
  ck : ℚ
  cv : ℚ
  co : ℚ
  sq : ℚ
  sk : ℚ
  sv : ℚ
  so : ℚ
deriving DecidableEq

/-- The configured factor for a kind/component pair. -/
def Scales.get (sc : Scales) : AttnKind → Comp → ℚ
  | .audio, .q => sc.aq
  | .audio, .k => sc.ak
  | .audio, .v => sc.av
  | .audio, .o => sc.ao
  | .cross, .q => sc.cq
  | .cross, .k => sc.ck
  | .cross, .v => sc.cv
  | .cross, .o => sc.co
  | .selfA, .q => sc.sq
  | .selfA, .k => sc.sk
  | .selfA, .v => sc.sv
  | .selfA, .o => sc.so

/-- Per attention sub-object: for each component in `q, k, v, o` order,
attach a hook when `scale != 1.0 and hasattr(attn, comp)` (V4 writes this
as a loop over `[('q', q_scale), ...]`; V3 writes the same four checks
out one after the other). -/
def attnCompLocs (bi : ℕ) (kind : AttnKind) (am : AttnMod)
    (cs : List (Comp × ℚ)) : List (Loc × ℚ) :=
  cs.filterMap
    (fun c =>
      if c.2 ≠ 1 ∧ am.has c.1 = true then some (⟨bi, kind, c.1⟩, c.2)
      else none)

/-- The hook sites one iteration of the block loop requests, in program
order.  This embeds the loop body shared, line for line, by
`HuMoAudioAttentionControlV4.apply_attention_control` (src/nodes.py
270-317) and `HuMoAudioAttentionBoostV3.boost_attention`
(src/comfyui-humo-audio-motion/nodes.py 290-417): skip the index when
`block_idx >= len(blocks)` (with a printed warning), otherwise visit
audio/cross/self attention for the selections containing the index,
guarded by the `hasattr` checks.  The `none` branch of `get?` is
unreachable: parsed indices are nonnegative (`parse_nonneg` below), so
Python's negative-index wraparound never comes into play. -/
def blockLocs (blocks : List Block) (aSel cSel sSel : List ℤ) (sc : Scales)
    (bi : ℤ) : List (Loc × ℚ) :=
  if (blocks.length : ℤ) ≤ bi then []
  else
    match blocks.get? bi.toNat with
    | none => []
    | some blk =>
        (if bi ∈ aSel then
          match blk.audioAttn with
          | some am =>
              attnCompLocs bi.toNat .audio am
                [(.q, sc.aq), (.k, sc.ak), (.v, sc.av), (.o, sc.ao)]
          | none => []
        else []) ++
        (if bi ∈ cSel then
          match blk.crossAttn with
          | some am =>
              attnCompLocs bi.toNat .cross am
                [(.q, sc.cq), (.k, sc.ck), (.v, sc.cv), (.o, sc.co)]
          | none => []
        else []) ++
        (if bi ∈ sSel then
          match blk.selfAttn with
          | some am =>
              attnCompLocs bi.toNat .selfA am
                [(.q, sc.sq), (.k, sc.sk), (.v, sc.sv), (.o, sc.so)]
          | none => []
        else [])

/-- All hook sites one run of the granular block loop requests, visiting
`sorted(set(audio) | set(cross) | set(self))` in order. -/
def hookLocs (blocks : List Block) (aIdx cIdx sIdx : List ℤ) (sc : Scales) :
    List (Loc × ℚ) :=
  (pySortedSet (aIdx ++ cIdx ++ sIdx)).flatMap (blockLocs blocks aIdx cIdx sIdx sc)

namespace HuMoAudioAttentionControlV4

/-- The clear-before-attach step of `apply_attention_control`
(src/nodes.py 255-263): for `_attention_control_hooks` then
`_lipsync_suppress_hooks`, if the attribute is set, remove each tracked
hook inside `try/except: pass` and reset the attribute to `[]`. -/
def v4Clear (s : PState) : PState :=
  let s1 :=
    match s.ctrlHooks with
    | none => s
    | some ids =>
        {s with active := removeIds s.invalid ids s.active,
                ctrlHooks := some []}
  match s1.suppHooks with
  | none => s1
  | some ids =>
      {s1 with active := removeIds s1.invalid ids s1.active,
               suppHooks := some []}

/-- The state `apply_attention_control` leaves behind on the non-raising
path: clear, walk `sorted(set(audio) | set(cross) | set(self))` attaching
hooks, then `model._attention_control_hooks = hook_handles`. -/
def v4Result (s : PState) (aIdx cIdx sIdx : List ℤ) (sc : Scales) : PState :=
  let s1 := v4Clear s
  let p := registerAll s1 (hookLocs s1.blocks aIdx cIdx sIdx sc)
  {p.1 with ctrlHooks := some p.2}

/-- `HuMoAudioAttentionControlV4.apply_attention_control`
(src/nodes.py 216-324).  Evaluation order as in the source: parse the
three block selections (audio, cross, self; a malformed custom range
raises here), print the configuration (the prints index
`audio_block_indices[0]` etc., so an enabled kind whose selection parsed
to the empty list raises `IndexError`), clear previously tracked hooks,
attach the new hooks and record them. -/
def apply_attention_control (model : PState)
    (enable_audio_cross_attn : Bool) (audio_blocks : String)
    (enable_cross_attn : Bool) (cross_blocks : String)
    (enable_self_attn : Bool) (self_blocks : String)
    (sc : Scales)
    (audio_custom_range cross_custom_range self_custom_range : String) :
    Except String PState :=
  match (if enable_audio_cross_attn then
           parse_block_range audio_blocks audio_custom_range else .ok []) with
  | .error e => .error e
  | .ok audioIdx =>
  match (if enable_cross_attn then
           parse_block_range cross_blocks cross_custom_range else .ok []) with
  | .error e => .error e
  | .ok crossIdx =>
  match (if enable_self_attn then
           parse_block_range self_blocks self_custom_range else .ok []) with
  | .error e => .error e
  | .ok selfIdx =>
  if enable_audio_cross_attn ∧ audioIdx = [] then .error "IndexError"
  else if enable_cross_attn ∧ crossIdx = [] then .error "IndexError"
  else if enable_self_attn ∧ selfIdx = [] then .error "IndexError"
  else .ok (v4Result model audioIdx crossIdx selfIdx sc)

end HuMoAudioAttentionControlV4

namespace HuMoAudioAttentionBoostV3

/-- The clean-up step of `boost_attention`
(src/comfyui-humo-audio-motion/nodes.py 249-253): if
`_attention_boost_hooks` is set, remove each tracked hook with **no**
exception handler (the first stale handle raises out of the procedure),
then reset the attribute to `[]`. -/
def v3Clear (s : PState) : Except String PState :=
  match s.boostHooks with
  | none => .ok s
  | some ids =>
      match removeIdsStrict s.invalid ids s.active with
      | .error e => .error e
      | .ok hs => .ok {s with active := hs, boostHooks := some []}

/-- The state `boost_attention` leaves behind on the non-raising path
(after the clean-up): attach hooks over the sorted union of selections,
then extend `_attention_boost_hooks` (freshly `[]` if unset) with the new
handles. -/
def v3Result (s1 : PState) (aIdx cIdx sIdx : List ℤ) (sc : Scales) : PState :=
  let p := registerAll s1 (hookLocs s1.blocks aIdx cIdx sIdx sc)
  {p.1 with boostHooks := some (p.1.boostHooks.getD [] ++ p.2)}

/-- `HuMoAudioAttentionBoostV3.boost_attention`
(src/comfyui-humo-audio-motion/nodes.py 234-428).  Evaluation order as in
the source: clean up old hooks first (stale-handle failures propagate),
parse the three selections, print the configuration (the prints call
`min`/`max` on the parsed lists, so an enabled kind whose selection is
empty raises `ValueError`), then attach and record. -/
def boost_attention (model : PState)
    (enable_audio_cross_attn : Bool) (audio_blocks : String)
    (enable_cross_attn : Bool) (cross_blocks : String)
    (enable_self_attn : Bool) (self_blocks : String)
    (sc : Scales)
    (audio_custom_range cross_custom_range self_custom_range : Option String) :
    Except String PState :=
  match v3Clear model with
  | .error e => .error e
  | .ok s1 =>
  match (if enable_audio_cross_attn then
           parse_block_range audio_blocks audio_custom_range else .ok []) with
  | .error e => .error e
  | .ok audioIdx =>
  match (if enable_cross_attn then
           parse_block_range cross_blocks cross_custom_range else .ok []) with
  | .error e => .error e
  | .ok crossIdx =>
  match (if enable_self_attn then
           parse_block_range self_blocks self_custom_range else .ok []) with
  | .error e => .error e
  | .ok selfIdx =>
  if enable_audio_cross_attn ∧ audioIdx = [] then .error "ValueError"
  else if enable_cross_attn ∧ crossIdx = [] then .error "ValueError"
  else if enable_self_attn ∧ selfIdx = [] then .error "ValueError"
  else .ok (v3Result s1 audioIdx crossIdx selfIdx sc)

end HuMoAudioAttentionBoostV3

namespace HuMoLipsyncSuppressAttn

/-- The clear step of `suppress` (src/nodes.py 379-386): for
`_lipsync_suppress_hooks` then `_attention_control_hooks`, if set,
remove each tracked hook inside `try/except: pass` and reset to `[]`. -/
def suppressClear (s : PState) : PState :=
  let s1 :=
    match s.suppHooks with
    | none => s
    | some ids =>
        {s with active := removeIds s.invalid ids s.active,
                suppHooks := some []}
  match s1.ctrlHooks with
  | none => s1
  | some ids =>
      {s1 with active := removeIds s1.invalid ids s1.active,
               ctrlHooks := some []}

/-- Whether the loop body of `suppress` patches block `bi`: the index is
in range, the block has an `audio_cross_attn_wrapper`, and the attention
object has an `o` projection.  Out-of-range indices are skipped by a bare
`continue` — no diagnostic is printed for them. -/
def suppressPatch (blocks : List Block) (bi : ℕ) : Bool :=
  if blocks.length ≤ bi then false
  else
    match blocks.get? bi with
    | none => false
    | some blk =>
        match blk.audioAttn with
        | none => false
        | some am => am.has_o

/-- The blocks `suppress` patches: the patchable indices of
`range(block_start, block_end + 1)` in order. -/
def suppressPatched (blocks : List Block) (block_start block_end : ℕ) :
    List ℕ :=
  (List.range' block_start (block_end + 1 - block_start)).filter
    (suppressPatch blocks)

/-- The state `suppress` leaves behind on the enabled, non-raising path:
clear, hook each patched block's audio `o` projection with the strength,
record the handles in `_lipsync_suppress_hooks`. -/
def suppressResult (model : PState) (suppression_strength : ℚ)
    (block_start block_end : ℕ) : PState :=
  let s1 := suppressClear model
  let ls := (suppressPatched s1.blocks block_start block_end).map
    (fun bi => ((⟨bi, .audio, .o⟩ : Loc), suppression_strength))
  let p := registerAll s1 ls
  {p.1 with suppHooks := some p.2}

/-- `HuMoLipsyncSuppressAttn.suppress` (src/nodes.py 367-418): return the
model untouched when disabled; otherwise clear both shared bookkeeping
keys, hook the `o` projection of the audio cross-attention of every
patchable block in `range(block_start, block_end + 1)` with the
suppression strength (note: unconditionally — there is no
`suppression_strength != 1.0` check), then print
`patched_blocks[0]-patched_blocks[-1]`, which raises `IndexError` when no
block was patched, and finally record the handles. -/
def suppress (model : PState) (enabled : Bool) (suppression_strength : ℚ)
    (block_start block_end : ℕ) : Except String PState :=
  if !enabled then .ok model
  else if suppressPatched (suppressClear model).blocks block_start block_end
      = [] then .error "IndexError"
  else .ok (suppressResult model suppression_strength block_start block_end)

end HuMoLipsyncSuppressAttn

/-! ## Specification-side descriptions of range segments

Used to state what "a well-formed comma-separated range string" means:
each comma segment denotes either a single integer or an inclusive
start-end pair; `WfPart` says a segment's text denotes a given `Seg`
(the pieces are numeric in exactly the way Python's `int()` accepts).
-/

/-- A range segment as the documentation describes it. -/
inductive Seg where
  | single (n : ℤ)
  | pair (a b : ℤ)

/-- The list of integers a segment contributes, in order. -/
def segList : Seg → List ℤ
  | .single n => [n]
  | .pair a b => pyRange a (b + 1)

/-- The set of integers a segment denotes. -/
def segSet : Seg → Finset ℤ
  | .single n => {n}
  | .pair a b => Finset.Icc a b

/-- The union of the segments' integer sets. -/
def segsUnion (l : List Seg) : Finset ℤ :=
  l.foldr (fun sg acc => segSet sg ∪ acc) ∅

/-- The text of one comma segment denotes the given range segment. -/
def WfPart (p : List Char) : Seg → Prop
  | .single n =>
      '-' ∉ pyStrip p ∧ pyIntC (pyStrip p) = .ok n
  | .pair a b =>
      '-' ∈ pyStrip p ∧ a ≤ b ∧
      ∃ x y, pySplit '-' (pyStrip p) = [x, y] ∧
        pyIntC x = .ok a ∧ pyIntC y = .ok b

/-- An `Except` value is an exception. -/
def Except.isErr {ε α : Type} : Except ε α → Bool
  | .error _ => true
  | .ok _ => false

/-! ## Lemmas about the string primitives and the parsers -/

theorem mem_of_mem_dropWhile {α : Type} {p : α → Bool} {x : α} :
    ∀ {l : List α}, x ∈ l.dropWhile p → x ∈ l := by
  intro l
  induction l with
  | nil => simp [List.dropWhile]
  | cons c cs ih =>
      simp only [List.dropWhile]
      intro h
      cases hc : p c with
      | true => rw [hc] at h; exact List.mem_cons_of_mem _ (ih h)
      | false => rw [hc] at h; exact h

theorem mem_of_mem_pyStrip {x : Char} {l : List Char} (h : x ∈ pyStrip l) :
    x ∈ l := by
  unfold pyStrip at h
  rw [List.mem_reverse] at h
  have h2 := mem_of_mem_dropWhile h
  rw [List.mem_reverse] at h2
  exact mem_of_mem_dropWhile h2

theorem pySplitAux_sep_not_mem {sep : Char} :
    ∀ (l acc : List Char), sep ∉ acc →
      ∀ q ∈ pySplitAux sep l acc, sep ∉ q := by
  intro l
  induction l with
  | nil =>
      intro acc hacc q hq
      simp only [pySplitAux, List.mem_singleton] at hq
      subst hq
      simpa using hacc
  | cons c cs ih =>
      intro acc hacc q hq
      simp only [pySplitAux] at hq
      by_cases hc : c = sep
      · rw [if_pos hc] at hq
        rcases List.mem_cons.mp hq with hq | hq
        · subst hq; simpa using hacc
        · exact ih [] (by simp) q hq
      · rw [if_neg hc] at hq
        refine ih (c :: acc) ?_ q hq
        intro hmem
        rcases List.mem_cons.mp hmem with hmem | hmem
        · exact hc hmem.symm
        · exact hacc hmem

theorem pySplit_sep_not_mem {sep : Char} {l : List Char} {q : List Char}
    (hq : q ∈ pySplit sep l) : sep ∉ q :=
  pySplitAux_sep_not_mem l [] (by simp) q hq

theorem pyIntC_nonneg {l : List Char} {n : ℤ} (hm : '-' ∉ l)
    (h : pyIntC l = .ok n) : 0 ≤ n := by
  simp only [pyIntC] at h
  split at h
  · -- leading '-' arm: impossible, '-' would be a character of `l`
    exfalso
    apply hm
    apply mem_of_mem_pyStrip
    next heq => rw [heq]; exact List.mem_cons_self _ _
  · -- leading '+' arm
    split at h
    · injection h with h'
      subst h'
      exact Int.ofNat_nonneg _
    · exact absurd h (by simp)
  · -- unsigned arm
    split at h
    · injection h with h'
      subst h'
      exact Int.ofNat_nonneg _
    · exact absurd h (by simp)

theorem mem_pyRange {x a b : ℤ} : x ∈ pyRange a b ↔ a ≤ x ∧ x < b := by
  unfold pyRange
  rw [List.mem_map]
  constructor
  · rintro ⟨i, hi, rfl⟩
    rw [List.mem_range] at hi
    omega
  · rintro ⟨h1, h2⟩
    exact ⟨(x - a).toNat, List.mem_range.mpr (by omega), by omega⟩

theorem pyRange_toFinset {a b : ℤ} :
    (pyRange a (b + 1)).toFinset = Finset.Icc a b := by
  ext x
  simp only [List.mem_toFinset, mem_pyRange, Finset.mem_Icc]
  omega

theorem pyRange_eq_nil {a b : ℤ} (h : b ≤ a) : pyRange a b = [] := by
  simp only [pyRange]
  have : (b - a).toNat = 0 := by omega
  rw [this]
  rfl

theorem segList_toFinset (sg : Seg) : (segList sg).toFinset = segSet sg := by
  cases sg with
  | single n => simp [segList, segSet]
  | pair a b => simpa [segList, segSet] using pyRange_toFinset

theorem flatMap_segList_toFinset (segs : List Seg) :
    (segs.flatMap segList).toFinset = segsUnion segs := by
  induction segs with
  | nil => simp [segsUnion]
  | cons sg rest ih =>
      simp only [List.flatMap_cons, List.toFinset_append, segsUnion,
        List.foldr_cons, ih, segList_toFinset]

theorem pySortedSet_toFinset (l : List ℤ) :
    (pySortedSet l).toFinset = l.toFinset := by
  ext x
  simp only [List.mem_toFinset, pySortedSet,
    (List.perm_insertionSort (· ≤ ·) l.dedup).mem_iff, List.mem_dedup]

theorem pySortedSet_sorted_lt (l : List ℤ) :
    (pySortedSet l).Sorted (· < ·) := by
  have hnd : (List.insertionSort (· ≤ ·) l.dedup).Nodup :=
    ((List.perm_insertionSort (· ≤ ·) l.dedup).nodup_iff).mpr
      (List.nodup_dedup l)
  exact (List.sorted_insertionSort (· ≤ ·) l.dedup).lt_of_le hnd

theorem mem_pySortedSet {x : ℤ} {l : List ℤ} :
    x ∈ pySortedSet l ↔ x ∈ l := by
  rw [← List.mem_toFinset, pySortedSet_toFinset, List.mem_toFinset]

theorem parsePart_of_wf {p : List Char} {sg : Seg} (h : WfPart p sg) :
    parsePart p = .ok (segList sg) := by
  cases sg with
  | single n =>
      obtain ⟨hc, hi⟩ := h
      simp only [parsePart, if_neg hc, hi]
      rfl
  | pair a b =>
      obtain ⟨hc, _, x, y, hsp, hx, hy⟩ := h
      simp only [parsePart, if_pos hc, hsp, hx, hy]
      rfl

theorem parseParts_of_wf :
    ∀ {parts : List (List Char)} {segs : List Seg},
      List.Forall₂ WfPart parts segs →
      parseParts parts = .ok (segs.flatMap segList) := by
  intro parts segs h
  induction h with
  | nil => rfl
  | cons hpq _ ih =>
      simp only [parseParts, parsePart_of_wf hpq, ih, List.flatMap_cons]

theorem parseRangeString_of_wf {s : String} {segs : List Seg}
    (h : List.Forall₂ WfPart (pySplit ',' s.data) segs) :
    parseRangeString s = .ok (pySortedSet (segs.flatMap segList)) := by
  simp only [parseRangeString, parseParts_of_wf h]

theorem parseParts_err {parts : List (List Char)} {p : List Char}
    (hp : p ∈ parts) {e : String} (he : parsePart p = .error e) :
    ∃ e', parseParts parts = .error e' := by
  induction parts with
  | nil => cases hp
  | cons q rest ih =>
      rcases List.mem_cons.mp hp with hp | hp
      · subst hp
        exact ⟨e, by simp only [parseParts, he]⟩
      · cases hq : parsePart q with
        | error e₁ => exact ⟨e₁, by simp only [parseParts, hq]⟩
        | ok ns =>
            obtain ⟨e', he'⟩ := ih hp
            exact ⟨e', by simp only [parseParts, hq, he']⟩

theorem parseParts_nonneg :
    ∀ {parts : List (List Char)} {l : List ℤ},
      parseParts parts = .ok l → ∀ x ∈ l, 0 ≤ x := by
  intro parts
  induction parts with
  | nil =>
      intro l h x hx
      injection h with h'
      subst h'
      cases hx
  | cons q rest ih =>
      intro l h x hx
      simp only [parseParts] at h
      cases hq : parsePart q with
      | error e => rw [hq] at h; exact absurd h (by simp)
      | ok ns =>
          rw [hq] at h
          cases hr : parseParts rest with
          | error e => rw [hr] at h; exact absurd h (by simp)
          | ok ms =>
              rw [hr] at h
              injection h with h'
              subst h'
              rcases List.mem_append.mp hx with hx | hx
              · -- x came from this segment
                clear ih
                simp only [parsePart] at hq
                split at hq
                · next hdash =>
                    split at hq
                    · next xa yb hsp =>
                        cases hxa : pyIntC xa with
                        | error e => rw [hxa] at hq; exact absurd hq (by simp)
                        | ok av =>
                            rw [hxa] at hq
                            cases hyb : pyIntC yb with
                            | error e =>
                                rw [hyb] at hq; exact absurd hq (by simp)
                            | ok bv =>
                                rw [hyb] at hq
                                injection hq with hq'
                                subst hq'
                                have hxm : xa ∈ pySplit '-' (pyStrip q) := by
                                  rw [hsp]; exact List.mem_cons_self _ _
                                have hav : 0 ≤ av :=
                                  pyIntC_nonneg (pySplit_sep_not_mem hxm) hxa
                                have := mem_pyRange.mp hx
                                omega
                    · exact absurd hq (by simp)
                · next hdash =>
                    cases hn : pyIntC (pyStrip q) with
                    | error e => rw [hn] at hq; exact absurd hq (by simp)
                    | ok n =>
                        rw [hn] at hq
                        injection hq with hq'
                        subst hq'
                        rw [List.mem_singleton] at hx
                        subst hx
                        exact pyIntC_nonneg hdash hn
              · exact ih hr x hx

theorem parse_nonneg {s : String} {l : List ℤ}
    (h : parseRangeString s = .ok l) : ∀ x ∈ l, 0 ≤ x := by
  intro x hx
  simp only [parseRangeString] at h
  cases hp : parseParts (pySplit ',' s.data) with
  | error e => rw [hp] at h; exact absurd h (by simp)
  | ok blocks =>
      rw [hp] at h
      injection h with h'
      subst h'
      exact parseParts_nonneg hp x (mem_pySortedSet.mp hx)

/-! ## Claim C4: the custom range parser -/

/-- C4: For every well-formed custom range string composed of
comma-separated segments, each a single non-negative integer or an
inclusive start-end pair, `parse_block_range` returns the deduplicated,
ascending sequence equal to the union of each segment's integers,
independent of segment order and of duplicated segments.  (The output is
the unique strictly sorted enumeration of the union of the segments'
sets, so any two segment lists with the same union — in particular
reorderings and duplications — give the same output.) -/
theorem parse_block_range_custom_wf (s : String) (segs : List Seg)
    (hw : List.Forall₂ WfPart (pySplit ',' s.data) segs) :
    ∃ out, parseRangeString s = .ok out ∧
      HuMoAudioAttentionControlV4.parse_block_range "custom" s = .ok out ∧
      HuMoAudioAttentionBoostV3.parse_block_range "custom" (some s) = .ok out ∧
      out.toFinset = segsUnion segs ∧ out.Sorted (· < ·) := by
  have hout := parseRangeString_of_wf hw
  refine ⟨pySortedSet (segs.flatMap segList), hout, ?_, ?_, ?_,
    pySortedSet_sorted_lt _⟩
  · simp only [HuMoAudioAttentionControlV4.parse_block_range, if_pos rfl]
    exact hout
  · have hs : s ≠ "" := by
      intro h
      subst h
      have hsplit : pySplit ',' ("" : String).data = [[]] := rfl
      rw [hsplit] at hw
      cases hw with
      | cons hw1 _ =>
          cases ‹Seg› with
          | single n =>
              have h2 := hw1.2
              have h3 : pyIntC (pyStrip ([] : List Char)) =
                  .error "ValueError" := rfl
              rw [h3] at h2
              exact absurd h2 (by simp)
          | pair a b =>
              have h1 := hw1.1
              have h3 : pyStrip ([] : List Char) = [] := rfl
              rw [h3] at h1
              cases h1
    simp only [HuMoAudioAttentionBoostV3.parse_block_range, Option.getD_some]
    rw [if_pos ⟨trivial, hs⟩]
    exact hout
  · rw [pySortedSet_toFinset, flatMap_segList_toFinset]

/-- Witness for C4 at the spec's own example `"5-5,5" → {5}`. -/
theorem parse_block_range_custom_wf_witness :
    HuMoAudioAttentionControlV4.parse_block_range "custom" "5-5,5" = .ok [5] ∧
    HuMoAudioAttentionBoostV3.parse_block_range "custom" (some "5-5,5") =
      .ok [5] := by
  have hw : List.Forall₂ WfPart (pySplit ',' ("5-5,5" : String).data)
      [Seg.pair 5 5, Seg.single 5] := by
    have hsplit : pySplit ',' ("5-5,5" : String).data =
        [['5', '-', '5'], ['5']] := by decide
    rw [hsplit]
    refine List.Forall₂.cons ?_ (List.Forall₂.cons ?_ List.Forall₂.nil)
    · exact ⟨by decide, by decide, ['5'], ['5'], by decide, by decide, by decide⟩
    · exact ⟨by decide, by decide⟩
  obtain ⟨out, h0, h1, h2, _, _⟩ :=
    parse_block_range_custom_wf "5-5,5" [Seg.pair 5 5, Seg.single 5] hw
  have h5 : parseRangeString "5-5,5" = .ok [5] := by decide
  rw [h5] at h0
  injection h0 with h0
  rw [← h0] at h1 h2
  exact ⟨h1, h2⟩

/-! ## Claim C8: malformed custom range segments -/

/-- C8 counterexample: a reversed start-end pair is claimed to surface a
usage error, but `parse_block_range` on `"9-5"` returns a resolved (empty)
index set with no error. -/
theorem reversed_range_returns_ok :
    HuMoAudioAttentionControlV4.parse_block_range "custom" "9-5" =
      .ok [] := by decide

/-- C8 amended: a segment the split/convert step rejects (non-numeric
text, or a dashed segment that does not split into exactly two integers)
raises a conversion failure out of the parser; but a reversed start-end
pair is not rejected — both integers convert and the segment contributes
the empty range. -/
theorem malformed_segment_errors :
    (∀ (s : String) (p : List Char) (e : String), p ∈ pySplit ',' s.data →
        parsePart p = .error e → (parseRangeString s).isErr = true) ∧
    (∀ (p x y : List Char) (a b : ℤ), '-' ∈ pyStrip p →
        pySplit '-' (pyStrip p) = [x, y] →
        pyIntC x = .ok a → pyIntC y = .ok b → b < a →
        parsePart p = .ok []) := by
  constructor
  · intro s p e hp he
    obtain ⟨e', he'⟩ := parseParts_err hp he
    simp only [parseRangeString, he', Except.isErr]
  · intro p x y a b hd hsp hx hy hba
    simp only [parsePart, if_pos hd, hsp, hx, hy]
    rw [pyRange_eq_nil (by omega)]

/-- Witness for C8's amended claim: `"abc"` raises, `"9-5"` resolves
to the empty set. -/
theorem malformed_segment_errors_witness :
    (parseRangeString "abc").isErr = true ∧
    parsePart ("9-5" : String).data = .ok [] :=
  ⟨malformed_segment_errors.1 "abc" ("abc" : String).data "ValueError"
      (by decide) (by decide),
   malformed_segment_errors.2 ("9-5" : String).data ['9'] ['5'] 9 5
      (by decide) (by decide) (by decide) (by decide) (by decide)⟩

/-! ## Claim C9: unknown presets -/

/-- C9: For every preset name not present in the parser's fixed preset
table (and not the `"custom"` marker), `parse_block_range` does not fail
and returns the default range `0..10` inclusive — in both node classes. -/
theorem unknown_preset_default (preset : String)
    (h4 : preset ∉ ["custom", "early_0-5_structure", "early_0-10_body",
      "mid_6-24_lipsync", "mid_10-25_gestures", "late_25-39_texture",
      "most_0-30_aggressive", "all_0-39_maximum"])
    (h3 : preset ∉ ["custom", "early_0-10_body", "early_mid_0-20_full_body",
      "mid_10-25_gestures", "most_0-30_aggressive", "all_0-39_maximum"])
    (c : String) (c' : Option String) :
    HuMoAudioAttentionControlV4.parse_block_range preset c =
      .ok (pyRange 0 11) ∧
    HuMoAudioAttentionBoostV3.parse_block_range preset c' =
      .ok (pyRange 0 11) := by
  simp only [List.mem_cons, List.not_mem_nil, or_false, not_or] at h4 h3
  obtain ⟨n1, n2, n3, n4, n5, n6, n7, n8⟩ := h4
  obtain ⟨m1, m2, m3, m4, m5, m6⟩ := h3
  constructor
  · simp only [HuMoAudioAttentionControlV4.parse_block_range,
      HuMoAudioAttentionControlV4.rangeMap, if_neg n1, if_neg n2, if_neg n3,
      if_neg n4, if_neg n5, if_neg n6, if_neg n7, if_neg n8]
    decide
  · simp only [HuMoAudioAttentionBoostV3.parse_block_range]
    rw [if_neg (fun hc => m1 hc.1)]
    simp only [HuMoAudioAttentionBoostV3.presetRanges, if_neg m2, if_neg m3,
      if_neg m4, if_neg m5, if_neg m6]

/-- Witness for C9 at the unknown preset `"bogus"`. -/
theorem unknown_preset_default_witness :
    HuMoAudioAttentionControlV4.parse_block_range "bogus" "x" =
      .ok (pyRange 0 11) ∧
    HuMoAudioAttentionBoostV3.parse_block_range "bogus" none =
      .ok (pyRange 0 11) :=
  unknown_preset_default "bogus" (by decide) (by decide) "x" none

/-! ## Claim C1: what the hook callbacks compute -/

/-- C1 counterexample: the claim says every hook factory's callback maps
a tuple output to a tuple with index 0 scaled, but
`create_scale_hook`'s callback is a bare `output * scale`, which on a
tuple raises `TypeError` (a sequence cannot be multiplied by a float). -/
theorem scale_hook_tuple_raises :
    HuMoAudioAttentionControlV4.create_scale_hook 2 (.tup [3]) =
      .error "TypeError" := rfl

/-- C1 amended: for every factor `f`, all three callbacks scale a numeric
output `x` to `x*f`; `create_boost_hook` additionally passes `None`
through and scales only index 0 of a nonempty tuple, returning the
remaining elements unchanged; but `create_scale_hook` and
`create_suppress_hook` have no tuple handling — on a tuple output they
raise `TypeError`. -/
theorem hook_callbacks_behavior :
    ∀ (f x : ℚ) (xs : List ℚ),
      HuMoAudioAttentionControlV4.create_scale_hook f (.tensor x) =
        .ok (.tensor (x * f)) ∧
      HuMoLipsyncSuppressAttn.create_suppress_hook f (.tensor x) =
        .ok (.tensor (x * f)) ∧
      HuMoAudioAttentionBoostV3.create_boost_hook f (.tensor x) =
        .ok (.tensor (x * f)) ∧
      HuMoAudioAttentionBoostV3.create_boost_hook f (.tup (x :: xs)) =
        .ok (.tup (x * f :: xs)) ∧
      HuMoAudioAttentionBoostV3.create_boost_hook f .noneV = .ok .noneV ∧
      HuMoAudioAttentionControlV4.create_scale_hook f (.tup xs) =
        .error "TypeError" ∧
      HuMoLipsyncSuppressAttn.create_suppress_hook f (.tup xs) =
        .error "TypeError" :=
  fun _ _ _ => ⟨rfl, rfl, rfl, rfl, rfl, rfl, rfl⟩

/-! ## Claim C10: the disabled suppression node -/

/-- C10: For every model handle, invoking the lip-sync suppression
procedure with `enabled = false` returns the same model handle
immediately and changes nothing — no hooks are removed and the
bookkeeping attributes are untouched (the returned state is literally the
input state). -/
theorem suppress_disabled_noop :
    ∀ (s : PState) (strength : ℚ) (bs be : ℕ),
      HuMoLipsyncSuppressAttn.suppress s false strength bs be = .ok s :=
  fun _ _ _ _ => rfl

/-! ## Lemmas about hook removal and registration -/

theorem removeIds_mem {inv : List ℕ} {h : Hook} :
    ∀ {ids : List ℕ} {hs : List Hook},
      h ∈ removeIds inv ids hs ↔
        h ∈ hs ∧ (h.id ∈ ids → h.id ∈ inv) := by
  intro ids
  induction ids with
  | nil =>
      intro hs
      simp [removeIds]
  | cons i rest ih =>
      intro hs
      have hstep : removeIds inv (i :: rest) hs =
          removeIds inv rest
            (if i ∈ inv then hs else hs.filter (fun h => h.id ≠ i)) := rfl
      rw [hstep, ih]
      by_cases hi : i ∈ inv
      · rw [if_pos hi]
        constructor
        · rintro ⟨h1, h2⟩
          refine ⟨h1, fun hm => ?_⟩
          rcases List.mem_cons.mp hm with he | hm
          · exact he ▸ hi
          · exact h2 hm
        · rintro ⟨h1, h2⟩
          exact ⟨h1, fun hm => h2 (List.mem_cons_of_mem _ hm)⟩
      · rw [if_neg hi]
        simp only [List.mem_filter, decide_eq_true_eq]
        constructor
        · rintro ⟨⟨h1, hne⟩, h2⟩
          refine ⟨h1, fun hm => ?_⟩
          rcases List.mem_cons.mp hm with he | hm
          · exact absurd he hne
          · exact h2 hm
        · rintro ⟨h1, h2⟩
          refine ⟨⟨h1, fun he => hi (he ▸ h2 (he ▸ List.mem_cons_self i rest))⟩,
            fun hm => h2 (List.mem_cons_of_mem _ hm)⟩

theorem removeIdsStrict_ok {inv : List ℕ} :
    ∀ {ids : List ℕ} {hs : List Hook}, (∀ i ∈ ids, i ∉ inv) →
      ∃ hs', removeIdsStrict inv ids hs = .ok hs' ∧
        ∀ h : Hook, h ∈ hs' ↔ h ∈ hs ∧ h.id ∉ ids := by
  intro ids
  induction ids with
  | nil =>
      intro hs _
      exact ⟨hs, rfl, by simp⟩
  | cons i rest ih =>
      intro hs hv
      have hi : i ∉ inv := hv i (List.mem_cons_self _ _)
      obtain ⟨hs', heq, hmem⟩ :=
        @ih (hs.filter (fun h => h.id ≠ i))
          (fun j hj => hv j (List.mem_cons_of_mem _ hj))
      refine ⟨hs', ?_, ?_⟩
      · simp only [removeIdsStrict, if_neg hi]
        exact heq
      · intro h
        rw [hmem h]
        simp only [List.mem_filter, decide_eq_true_eq, List.mem_cons, not_or]
        constructor
        · rintro ⟨⟨h1, h2⟩, h3⟩
          exact ⟨h1, h2, h3⟩
        · rintro ⟨h1, h2, h3⟩
          exact ⟨⟨h1, h2⟩, h3⟩

theorem removeIdsStrict_err {inv : List ℕ} :
    ∀ {ids : List ℕ}, (∃ i ∈ ids, i ∈ inv) →
      ∀ hs : List Hook, ∃ e, removeIdsStrict inv ids hs = .error e := by
  intro ids
  induction ids with
  | nil =>
      rintro ⟨i, hi, _⟩
      cases hi
  | cons j rest ih =>
      rintro ⟨i, hi, hinv⟩ hs
      by_cases hj : j ∈ inv
      · exact ⟨"RuntimeError", by simp only [removeIdsStrict, if_pos hj]⟩
      · rcases List.mem_cons.mp hi with he | hi
        · exact absurd (he ▸ hinv) hj
        · obtain ⟨e, he⟩ := ih ⟨i, hi, hinv⟩ (hs.filter (fun h => h.id ≠ j))
          refine ⟨e, ?_⟩
          simp only [removeIdsStrict, if_neg hj]
          exact he

theorem mem_mkHooks {h : Hook} :
    ∀ {n : ℕ} {ls : List (Loc × ℚ)}, h ∈ mkHooks n ls →
      n ≤ h.id ∧ h.id < n + ls.length ∧ (h.loc, h.scale) ∈ ls := by
  intro n ls
  induction ls generalizing n with
  | nil => intro hm; cases hm
  | cons x rest ih =>
      intro hm
      rcases List.mem_cons.mp hm with he | hm
      · subst he
        refine ⟨le_refl _, by simp only [List.length_cons]; omega, ?_⟩
        simp
      · obtain ⟨h1, h2, h3⟩ := ih hm
        refine ⟨by omega, by simp only [List.length_cons]; omega,
          List.mem_cons_of_mem _ h3⟩

theorem mkHooks_length : ∀ (n : ℕ) (ls : List (Loc × ℚ)),
    (mkHooks n ls).length = ls.length := by
  intro n ls
  induction ls generalizing n with
  | nil => rfl
  | cons x rest ih => simp only [mkHooks, List.length_cons, ih]

theorem registerStep_foldl :
    ∀ (ls : List (Loc × ℚ)) (s : PState) (hs : List ℕ),
      ls.foldl registerStep (s, hs) =
        ({s with active := s.active ++ mkHooks s.nextId ls,
                 nextId := s.nextId + ls.length},
         hs ++ (mkHooks s.nextId ls).map Hook.id) := by
  intro ls
  induction ls with
  | nil =>
      intro s hs
      simp [mkHooks]
  | cons x rest ih =>
      intro s hs
      rw [List.foldl_cons]
      have hstep : registerStep (s, hs) x =
          ({s with active := s.active ++ [⟨s.nextId, x.1, x.2⟩],
                   nextId := s.nextId + 1}, hs ++ [s.nextId]) := rfl
      rw [hstep, ih]
      simp only [mkHooks, List.map_cons, List.length_cons, Prod.mk.injEq,
        PState.mk.injEq, List.append_assoc, List.singleton_append,
        List.cons_append, List.nil_append, true_and, and_true]
      omega

theorem registerAll_eq (s : PState) (ls : List (Loc × ℚ)) :
    registerAll s ls =
      ({s with active := s.active ++ mkHooks s.nextId ls,
               nextId := s.nextId + ls.length},
       (mkHooks s.nextId ls).map Hook.id) := by
  unfold registerAll
  rw [registerStep_foldl]
  simp only [List.nil_append]

/-! ## Lemmas about the clear-before-attach steps -/

theorem v4Clear_spec (s : PState) :
    (HuMoAudioAttentionControlV4.v4Clear s).blocks = s.blocks ∧
    (HuMoAudioAttentionControlV4.v4Clear s).nextId = s.nextId ∧
    (HuMoAudioAttentionControlV4.v4Clear s).invalid = s.invalid ∧
    (HuMoAudioAttentionControlV4.v4Clear s).boostHooks = s.boostHooks ∧
    (HuMoAudioAttentionControlV4.v4Clear s).ctrlHooks =
      (s.ctrlHooks.map fun _ => ([] : List ℕ)) ∧
    (HuMoAudioAttentionControlV4.v4Clear s).suppHooks =
      (s.suppHooks.map fun _ => ([] : List ℕ)) := by
  rcases hc : s.ctrlHooks with _ | ids <;>
    rcases hs : s.suppHooks with _ | ids2 <;>
    simp [HuMoAudioAttentionControlV4.v4Clear, hc, hs]

theorem v4Clear_mem_active {s : PState} {h : Hook} :
    h ∈ (HuMoAudioAttentionControlV4.v4Clear s).active ↔
      h ∈ s.active ∧ (h.id ∈ s.ctrlHooks.getD [] → h.id ∈ s.invalid) ∧
        (h.id ∈ s.suppHooks.getD [] → h.id ∈ s.invalid) := by
  rcases hc : s.ctrlHooks with _ | ids <;>
    rcases hs : s.suppHooks with _ | ids2 <;>
    simp [HuMoAudioAttentionControlV4.v4Clear, hc, hs, removeIds_mem] <;>
    tauto

theorem suppressClear_spec (s : PState) :
    (HuMoLipsyncSuppressAttn.suppressClear s).blocks = s.blocks ∧
    (HuMoLipsyncSuppressAttn.suppressClear s).nextId = s.nextId ∧
    (HuMoLipsyncSuppressAttn.suppressClear s).invalid = s.invalid ∧
    (HuMoLipsyncSuppressAttn.suppressClear s).boostHooks = s.boostHooks ∧
    (HuMoLipsyncSuppressAttn.suppressClear s).ctrlHooks =
      (s.ctrlHooks.map fun _ => ([] : List ℕ)) ∧
    (HuMoLipsyncSuppressAttn.suppressClear s).suppHooks =
      (s.suppHooks.map fun _ => ([] : List ℕ)) := by
  rcases hc : s.ctrlHooks with _ | ids <;>
    rcases hs : s.suppHooks with _ | ids2 <;>
    simp [HuMoLipsyncSuppressAttn.suppressClear, hc, hs]

theorem suppressClear_mem_active {s : PState} {h : Hook} :
    h ∈ (HuMoLipsyncSuppressAttn.suppressClear s).active ↔
      h ∈ s.active ∧ (h.id ∈ s.ctrlHooks.getD [] → h.id ∈ s.invalid) ∧
        (h.id ∈ s.suppHooks.getD [] → h.id ∈ s.invalid) := by
  rcases hc : s.ctrlHooks with _ | ids <;>
    rcases hs : s.suppHooks with _ | ids2 <;>
    simp [HuMoLipsyncSuppressAttn.suppressClear, hc, hs, removeIds_mem] <;>
    tauto

theorem v3Clear_ok_inv {s s1 : PState}
    (h : HuMoAudioAttentionBoostV3.v3Clear s = .ok s1) :
    s1.blocks = s.blocks ∧ s1.nextId = s.nextId ∧ s1.invalid = s.invalid ∧
    s1.ctrlHooks = s.ctrlHooks ∧ s1.suppHooks = s.suppHooks ∧
    s1.boostHooks = (s.boostHooks.map fun _ => ([] : List ℕ)) ∧
    (∀ hk : Hook, hk ∈ s1.active ↔
      hk ∈ s.active ∧ hk.id ∉ s.boostHooks.getD []) := by
  rcases hb : s.boostHooks with _ | ids
  · simp only [HuMoAudioAttentionBoostV3.v3Clear, hb] at h
    injection h with h
    subst h
    simp [hb]
  · simp only [HuMoAudioAttentionBoostV3.v3Clear, hb] at h
    cases hrem : removeIdsStrict s.invalid ids s.active with
    | error e => rw [hrem] at h; exact absurd h (by simp)
    | ok hs' =>
        rw [hrem] at h
        injection h with h
        subst h
        have hvalid : ∀ i ∈ ids, i ∉ s.invalid := by
          intro i hi hinv
          obtain ⟨e, he⟩ := removeIdsStrict_err ⟨i, hi, hinv⟩ s.active
          rw [he] at hrem
          exact absurd hrem (by simp)
        obtain ⟨hs'', heq, hmem⟩ :=
          @removeIdsStrict_ok s.invalid ids s.active hvalid
        rw [heq] at hrem
        injection hrem with hrem
        subst hrem
        refine ⟨rfl, rfl, rfl, rfl, rfl, by simp [hb], ?_⟩
        intro hk
        simpa [hb] using hmem hk

/-! ## Lemmas about the requested hook sites -/

theorem mem_attnCompLocs_of {x : Loc × ℚ} {bi : ℕ} {k : AttnKind}
    {am : AttnMod} {cs : List (Comp × ℚ)} (hx : x ∈ attnCompLocs bi k am cs) :
    x.1.blockIdx = bi ∧ x.1.kind = k ∧ (x.1.comp, x.2) ∈ cs ∧ x.2 ≠ 1 := by
  unfold attnCompLocs at hx
  rw [List.mem_filterMap] at hx
  obtain ⟨c, hc, hfc⟩ := hx
  split at hfc
  · next hcond =>
      injection hfc with hfc
      subst hfc
      exact ⟨rfl, rfl, by simpa using hc, hcond.1⟩
  · exact absurd hfc (by simp)

theorem compPairs_scale_audio {sc : Scales} {c : Comp} {q : ℚ}
    (h : (c, q) ∈ [(Comp.q, sc.aq), (Comp.k, sc.ak),
      (Comp.v, sc.av), (Comp.o, sc.ao)]) :
    q = sc.get AttnKind.audio c := by
  simp only [List.mem_cons, List.not_mem_nil, or_false, Prod.mk.injEq] at h
  rcases h with ⟨rfl, rfl⟩ | ⟨rfl, rfl⟩ | ⟨rfl, rfl⟩ | ⟨rfl, rfl⟩ <;> rfl

theorem compPairs_scale_cross {sc : Scales} {c : Comp} {q : ℚ}
    (h : (c, q) ∈ [(Comp.q, sc.cq), (Comp.k, sc.ck),
      (Comp.v, sc.cv), (Comp.o, sc.co)]) :
    q = sc.get AttnKind.cross c := by
  simp only [List.mem_cons, List.not_mem_nil, or_false, Prod.mk.injEq] at h
  rcases h with ⟨rfl, rfl⟩ | ⟨rfl, rfl⟩ | ⟨rfl, rfl⟩ | ⟨rfl, rfl⟩ <;> rfl

theorem compPairs_scale_selfA {sc : Scales} {c : Comp} {q : ℚ}
    (h : (c, q) ∈ [(Comp.q, sc.sq), (Comp.k, sc.sk),
      (Comp.v, sc.sv), (Comp.o, sc.so)]) :
    q = sc.get AttnKind.selfA c := by
  simp only [List.mem_cons, List.not_mem_nil, or_false, Prod.mk.injEq] at h
  rcases h with ⟨rfl, rfl⟩ | ⟨rfl, rfl⟩ | ⟨rfl, rfl⟩ | ⟨rfl, rfl⟩ <;> rfl

theorem mem_blockLocs_of {blocks : List Block} {aSel cSel sSel : List ℤ}
    {sc : Scales} {bi : ℤ} {x : Loc × ℚ}
    (hx : x ∈ blockLocs blocks aSel cSel sSel sc bi) :
    x.1.blockIdx < blocks.length ∧ x.2 = sc.get x.1.kind x.1.comp ∧
      x.2 ≠ 1 := by
  unfold blockLocs at hx
  split at hx
  · cases hx
  · split at hx
    · cases hx
    · next blk hget =>
        have hlt : bi.toNat < blocks.length := by
          by_contra hcon
          rw [List.get?_eq_none.mpr (by omega)] at hget
          exact absurd hget (by simp)
        rcases List.mem_append.mp hx with hx | hx
        · rcases List.mem_append.mp hx with hx | hx
          · split at hx
            · split at hx
              · obtain ⟨h1, h2, h3, h4⟩ := mem_attnCompLocs_of hx
                rw [h1, h2]
                exact ⟨hlt, compPairs_scale_audio h3, h4⟩
              · cases hx
            · cases hx
          · split at hx
            · split at hx
              · obtain ⟨h1, h2, h3, h4⟩ := mem_attnCompLocs_of hx
                rw [h1, h2]
                exact ⟨hlt, compPairs_scale_cross h3, h4⟩
              · cases hx
            · cases hx
        · split at hx
          · split at hx
            · obtain ⟨h1, h2, h3, h4⟩ := mem_attnCompLocs_of hx
              rw [h1, h2]
              exact ⟨hlt, compPairs_scale_selfA h3, h4⟩
            · cases hx
          · cases hx

theorem blockLocs_of_ge {blocks : List Block} {aSel cSel sSel : List ℤ}
    {sc : Scales} {bi : ℤ} (h : (blocks.length : ℤ) ≤ bi) :
    blockLocs blocks aSel cSel sSel sc bi = [] := by
  unfold blockLocs
  rw [if_pos h]

theorem flatMap_blockLocs_filter {blocks : List Block}
    {aSel cSel sSel : List ℤ} {sc : Scales} (is : List ℤ) :
    is.flatMap (blockLocs blocks aSel cSel sSel sc) =
      (is.filter (fun bi => bi < (blocks.length : ℤ))).flatMap
        (blockLocs blocks aSel cSel sSel sc) := by
  induction is with
  | nil => rfl
  | cons bi rest ih =>
      by_cases hb : bi < (blocks.length : ℤ)
      · simp only [List.flatMap_cons, List.filter_cons, decide_eq_true_eq,
          if_pos hb, ih]
      · have hnil : blockLocs blocks aSel cSel sSel sc bi = [] :=
          blockLocs_of_ge (by omega)
        simp only [List.flatMap_cons, List.filter_cons, decide_eq_true_eq,
          if_neg hb, ih, hnil, List.nil_append]

theorem attnCompLocs_ones {bi : ℕ} {k : AttnKind} {am : AttnMod}
    {cs : List (Comp × ℚ)} (hc : ∀ x ∈ cs, x.2 = 1) :
    attnCompLocs bi k am cs = [] := by
  unfold attnCompLocs
  refine List.filterMap_eq_nil_iff.mpr ?_
  intro c hcm
  rw [if_neg]
  intro hcond
  exact hcond.1 (hc c hcm)

theorem blockLocs_ones {blocks : List Block} {aSel cSel sSel : List ℤ}
    {sc : Scales} {bi : ℤ} (h1 : ∀ k cp, sc.get k cp = 1) :
    blockLocs blocks aSel cSel sSel sc bi = [] := by
  have hA : ∀ x ∈ [(Comp.q, sc.aq), (Comp.k, sc.ak), (Comp.v, sc.av),
      (Comp.o, sc.ao)], (x : Comp × ℚ).2 = 1 := by
    intro x hx
    simp only [List.mem_cons, List.not_mem_nil, or_false] at hx
    rcases hx with rfl | rfl | rfl | rfl
    · exact h1 .audio .q
    · exact h1 .audio .k
    · exact h1 .audio .v
    · exact h1 .audio .o
  have hC : ∀ x ∈ [(Comp.q, sc.cq), (Comp.k, sc.ck), (Comp.v, sc.cv),
      (Comp.o, sc.co)], (x : Comp × ℚ).2 = 1 := by
    intro x hx
    simp only [List.mem_cons, List.not_mem_nil, or_false] at hx
    rcases hx with rfl | rfl | rfl | rfl
    · exact h1 .cross .q
    · exact h1 .cross .k
    · exact h1 .cross .v
    · exact h1 .cross .o
  have hS : ∀ x ∈ [(Comp.q, sc.sq), (Comp.k, sc.sk), (Comp.v, sc.sv),
      (Comp.o, sc.so)], (x : Comp × ℚ).2 = 1 := by
    intro x hx
    simp only [List.mem_cons, List.not_mem_nil, or_false] at hx
    rcases hx with rfl | rfl | rfl | rfl
    · exact h1 .selfA .q
    · exact h1 .selfA .k
    · exact h1 .selfA .v
    · exact h1 .selfA .o
  unfold blockLocs
  split
  · rfl
  · split
    · rfl
    · next blk hget =>
        rcases blk with ⟨aA, cA, sA⟩
        cases aA <;> cases cA <;> cases sA <;>
          simp [attnCompLocs_ones hA, attnCompLocs_ones hC,
            attnCompLocs_ones hS, ite_self]

theorem hookLocs_ones {blocks : List Block} {aSel cSel sSel : List ℤ}
    {sc : Scales} (h1 : ∀ k cp, sc.get k cp = 1) :
    hookLocs blocks aSel cSel sSel sc = [] := by
  unfold hookLocs
  refine List.flatMap_eq_nil_iff.mpr ?_
  intro bi _
  exact blockLocs_ones h1

/-! ## Characterizations of the three procedures' result states -/

theorem v4Result_spec (s : PState) (a c si : List ℤ) (sc : Scales) :
    (HuMoAudioAttentionControlV4.v4Result s a c si sc).blocks = s.blocks ∧
    (HuMoAudioAttentionControlV4.v4Result s a c si sc).invalid = s.invalid ∧
    (HuMoAudioAttentionControlV4.v4Result s a c si sc).nextId =
      s.nextId + (hookLocs s.blocks a c si sc).length ∧
    (HuMoAudioAttentionControlV4.v4Result s a c si sc).active =
      (HuMoAudioAttentionControlV4.v4Clear s).active ++
        mkHooks s.nextId (hookLocs s.blocks a c si sc) ∧
    (HuMoAudioAttentionControlV4.v4Result s a c si sc).ctrlHooks =
      some ((mkHooks s.nextId (hookLocs s.blocks a c si sc)).map Hook.id) ∧
    (HuMoAudioAttentionControlV4.v4Result s a c si sc).suppHooks =
      (s.suppHooks.map fun _ => ([] : List ℕ)) ∧
    (HuMoAudioAttentionControlV4.v4Result s a c si sc).boostHooks =
      s.boostHooks := by
  obtain ⟨hb, hn, hi, hbo, _, hs⟩ := v4Clear_spec s
  simp only [HuMoAudioAttentionControlV4.v4Result, registerAll_eq, hb, hn,
    hi, hbo, hs]
  simp

theorem v3Result_spec (s1 : PState) (a c si : List ℤ) (sc : Scales) :
    (HuMoAudioAttentionBoostV3.v3Result s1 a c si sc).blocks = s1.blocks ∧
    (HuMoAudioAttentionBoostV3.v3Result s1 a c si sc).invalid = s1.invalid ∧
    (HuMoAudioAttentionBoostV3.v3Result s1 a c si sc).nextId =
      s1.nextId + (hookLocs s1.blocks a c si sc).length ∧
    (HuMoAudioAttentionBoostV3.v3Result s1 a c si sc).active =
      s1.active ++ mkHooks s1.nextId (hookLocs s1.blocks a c si sc) ∧
    (HuMoAudioAttentionBoostV3.v3Result s1 a c si sc).ctrlHooks =
      s1.ctrlHooks ∧
    (HuMoAudioAttentionBoostV3.v3Result s1 a c si sc).suppHooks =
      s1.suppHooks ∧
    (HuMoAudioAttentionBoostV3.v3Result s1 a c si sc).boostHooks =
      some (s1.boostHooks.getD [] ++
        (mkHooks s1.nextId (hookLocs s1.blocks a c si sc)).map Hook.id) := by
  simp only [HuMoAudioAttentionBoostV3.v3Result, registerAll_eq]
  simp

theorem suppressResult_spec (s : PState) (str : ℚ) (bs be : ℕ) :
    (HuMoLipsyncSuppressAttn.suppressResult s str bs be).blocks = s.blocks ∧
    (HuMoLipsyncSuppressAttn.suppressResult s str bs be).invalid =
      s.invalid ∧
    (HuMoLipsyncSuppressAttn.suppressResult s str bs be).nextId =
      s.nextId +
        ((HuMoLipsyncSuppressAttn.suppressPatched s.blocks bs be).map
          (fun bi => ((⟨bi, .audio, .o⟩ : Loc), str))).length ∧
    (HuMoLipsyncSuppressAttn.suppressResult s str bs be).active =
      (HuMoLipsyncSuppressAttn.suppressClear s).active ++
        mkHooks s.nextId
          ((HuMoLipsyncSuppressAttn.suppressPatched s.blocks bs be).map
            (fun bi => ((⟨bi, .audio, .o⟩ : Loc), str))) ∧
    (HuMoLipsyncSuppressAttn.suppressResult s str bs be).suppHooks =
      some ((mkHooks s.nextId
        ((HuMoLipsyncSuppressAttn.suppressPatched s.blocks bs be).map
          (fun bi => ((⟨bi, .audio, .o⟩ : Loc), str)))).map Hook.id) ∧
    (HuMoLipsyncSuppressAttn.suppressResult s str bs be).ctrlHooks =
      (s.ctrlHooks.map fun _ => ([] : List ℕ)) ∧
    (HuMoLipsyncSuppressAttn.suppressResult s str bs be).boostHooks =
      s.boostHooks := by
  obtain ⟨hb, hn, hi, hbo, hc, _⟩ := suppressClear_spec s
  simp only [HuMoLipsyncSuppressAttn.suppressResult, registerAll_eq, hb, hn,
    hi, hbo, hc]
  simp

/-! ## Inversion of the procedures' success paths -/

theorem v4_ok_inv {m : PState} {ea : Bool} {ab : String} {ec : Bool}
    {cb : String} {es : Bool} {sb : String} {sc : Scales}
    {ca cc cs : String} {s' : PState}
    (h : HuMoAudioAttentionControlV4.apply_attention_control m ea ab ec cb
      es sb sc ca cc cs = .ok s') :
    ∃ aIdx cIdx sIdx : List ℤ,
      (if ea then HuMoAudioAttentionControlV4.parse_block_range ab ca
        else .ok []) = .ok aIdx ∧
      (if ec then HuMoAudioAttentionControlV4.parse_block_range cb cc
        else .ok []) = .ok cIdx ∧
      (if es then HuMoAudioAttentionControlV4.parse_block_range sb cs
        else .ok []) = .ok sIdx ∧
      ¬(ea = true ∧ aIdx = []) ∧ ¬(ec = true ∧ cIdx = []) ∧
      ¬(es = true ∧ sIdx = []) ∧
      s' = HuMoAudioAttentionControlV4.v4Result m aIdx cIdx sIdx sc := by
  unfold HuMoAudioAttentionControlV4.apply_attention_control at h
  split at h
  · exact absurd h (by simp)
  next aIdx hA =>
    split at h
    · exact absurd h (by simp)
    next cIdx hC =>
      split at h
      · exact absurd h (by simp)
      next sIdx hS =>
        split at h
        · exact absurd h (by simp)
        next h1 =>
          split at h
          · exact absurd h (by simp)
          next h2 =>
            split at h
            · exact absurd h (by simp)
            next h3 =>
              injection h with h
              exact ⟨aIdx, cIdx, sIdx, hA, hC, hS, h1, h2, h3, h.symm⟩

theorem v3_ok_inv {m : PState} {ea : Bool} {ab : String} {ec : Bool}
    {cb : String} {es : Bool} {sb : String} {sc : Scales}
    {ca cc cs : Option String} {s' : PState}
    (h : HuMoAudioAttentionBoostV3.boost_attention m ea ab ec cb es sb sc
      ca cc cs = .ok s') :
    ∃ (s1 : PState) (aIdx cIdx sIdx : List ℤ),
      HuMoAudioAttentionBoostV3.v3Clear m = .ok s1 ∧
      (if ea then HuMoAudioAttentionBoostV3.parse_block_range ab ca
        else .ok []) = .ok aIdx ∧
      (if ec then HuMoAudioAttentionBoostV3.parse_block_range cb cc
        else .ok []) = .ok cIdx ∧
      (if es then HuMoAudioAttentionBoostV3.parse_block_range sb cs
        else .ok []) = .ok sIdx ∧
      ¬(ea = true ∧ aIdx = []) ∧ ¬(ec = true ∧ cIdx = []) ∧
      ¬(es = true ∧ sIdx = []) ∧
      s' = HuMoAudioAttentionBoostV3.v3Result s1 aIdx cIdx sIdx sc := by
  unfold HuMoAudioAttentionBoostV3.boost_attention at h
  split at h
  · exact absurd h (by simp)
  next s1 hclear =>
    split at h
    · exact absurd h (by simp)
    next aIdx hA =>
      split at h
      · exact absurd h (by simp)
      next cIdx hC =>
        split at h
        · exact absurd h (by simp)
        next sIdx hS =>
          split at h
          · exact absurd h (by simp)
          next h1 =>
            split at h
            · exact absurd h (by simp)
            next h2 =>
              split at h
              · exact absurd h (by simp)
              next h3 =>
                injection h with h
                exact ⟨s1, aIdx, cIdx, sIdx, hclear, hA, hC, hS, h1, h2, h3,
                  h.symm⟩

theorem suppress_ok_inv {m : PState} {str : ℚ} {bs be : ℕ} {s' : PState}
    (h : HuMoLipsyncSuppressAttn.suppress m true str bs be = .ok s') :
    HuMoLipsyncSuppressAttn.suppressPatched
        (HuMoLipsyncSuppressAttn.suppressClear m).blocks bs be ≠ [] ∧
      s' = HuMoLipsyncSuppressAttn.suppressResult m str bs be := by
  unfold HuMoLipsyncSuppressAttn.suppress at h
  rw [if_neg (by simp)] at h
  split at h
  · exact absurd h (by simp)
  next hne =>
    injection h with h
    exact ⟨hne, h.symm⟩

/-! ## The procedures' success paths, forward direction -/

theorem v4_eq_ok {m : PState} {ea : Bool} {ab : String} {ec : Bool}
    {cb : String} {es : Bool} {sb : String} {sc : Scales}
    {ca cc cs : String} {aIdx cIdx sIdx : List ℤ}
    (hA : (if ea then HuMoAudioAttentionControlV4.parse_block_range ab ca
      else .ok []) = .ok aIdx)
    (hC : (if ec then HuMoAudioAttentionControlV4.parse_block_range cb cc
      else .ok []) = .ok cIdx)
    (hS : (if es then HuMoAudioAttentionControlV4.parse_block_range sb cs
      else .ok []) = .ok sIdx)
    (h1 : ¬(ea = true ∧ aIdx = [])) (h2 : ¬(ec = true ∧ cIdx = []))
    (h3 : ¬(es = true ∧ sIdx = [])) :
    HuMoAudioAttentionControlV4.apply_attention_control m ea ab ec cb es sb
      sc ca cc cs =
      .ok (HuMoAudioAttentionControlV4.v4Result m aIdx cIdx sIdx sc) := by
  unfold HuMoAudioAttentionControlV4.apply_attention_control
  rw [hA, hC, hS]
  simp only [if_neg h1, if_neg h2, if_neg h3]

theorem v3_eq_ok {m s1 : PState} {ea : Bool} {ab : String} {ec : Bool}
    {cb : String} {es : Bool} {sb : String} {sc : Scales}
    {ca cc cs : Option String} {aIdx cIdx sIdx : List ℤ}
    (hclear : HuMoAudioAttentionBoostV3.v3Clear m = .ok s1)
    (hA : (if ea then HuMoAudioAttentionBoostV3.parse_block_range ab ca
      else .ok []) = .ok aIdx)
    (hC : (if ec then HuMoAudioAttentionBoostV3.parse_block_range cb cc
      else .ok []) = .ok cIdx)
    (hS : (if es then HuMoAudioAttentionBoostV3.parse_block_range sb cs
      else .ok []) = .ok sIdx)
    (h1 : ¬(ea = true ∧ aIdx = [])) (h2 : ¬(ec = true ∧ cIdx = []))
    (h3 : ¬(es = true ∧ sIdx = [])) :
    HuMoAudioAttentionBoostV3.boost_attention m ea ab ec cb es sb sc
      ca cc cs =
      .ok (HuMoAudioAttentionBoostV3.v3Result s1 aIdx cIdx sIdx sc) := by
  unfold HuMoAudioAttentionBoostV3.boost_attention
  rw [hclear, hA, hC, hS]
  simp only [if_neg h1, if_neg h2, if_neg h3]

theorem suppress_eq_ok {m : PState} {str : ℚ} {bs be : ℕ}
    (hne : HuMoLipsyncSuppressAttn.suppressPatched
      (HuMoLipsyncSuppressAttn.suppressClear m).blocks bs be ≠ []) :
    HuMoLipsyncSuppressAttn.suppress m true str bs be =
      .ok (HuMoLipsyncSuppressAttn.suppressResult m str bs be) := by
  unfold HuMoLipsyncSuppressAttn.suppress
  rw [if_neg (by simp), if_neg hne]

theorem suppress_err_of_empty {m : PState} {str : ℚ} {bs be : ℕ}
    (hemp : HuMoLipsyncSuppressAttn.suppressPatched
      (HuMoLipsyncSuppressAttn.suppressClear m).blocks bs be = []) :
    HuMoLipsyncSuppressAttn.suppress m true str bs be =
      .error "IndexError" := by
  unfold HuMoLipsyncSuppressAttn.suppress
  rw [if_neg (by simp), if_pos hemp]

/-- The union-of-selections site list only requests sites whose scale is
the configured factor for that site and differs from `1.0`, at indices
inside the block collection. -/
theorem mem_hookLocs_of {blocks : List Block} {a c si : List ℤ}
    {sc : Scales} {x : Loc × ℚ} (hx : x ∈ hookLocs blocks a c si sc) :
    x.1.blockIdx < blocks.length ∧ x.2 = sc.get x.1.kind x.1.comp ∧
      x.2 ≠ 1 := by
  unfold hookLocs at hx
  rw [List.mem_flatMap] at hx
  obtain ⟨bi, _, hx⟩ := hx
  exact mem_blockLocs_of hx

/-! ## Claim C3: scale factor 1.0 and hook attachment -/

/-- C3 counterexample: the claim says a component whose configured factor
is exactly 1.0 never gets a hook, including the suppression node's output
component when `suppression_strength` is 1.0 — but `suppress` has no
`!= 1.0` check and attaches an output hook of scale 1 anyway. -/
theorem suppress_strength_one_attaches :
    HuMoLipsyncSuppressAttn.suppress
      ⟨[⟨some ⟨true, true, true, true⟩, none, none⟩], [], 0, [],
        none, none, none⟩ true 1 0 0 =
    .ok ⟨[⟨some ⟨true, true, true, true⟩, none, none⟩],
      [⟨0, ⟨0, .audio, .o⟩, 1⟩], 1, [], none, some [0], none⟩ := by decide

/-- C3 amended: in the two granular nodes (V4 control and V3 boost) a
component whose configured scale factor equals exactly 1.0 never gets a
hook attached, for any component of any attention kind; the lip-sync
suppression node, however, attaches its output hook regardless of the
strength, 1.0 included. -/
theorem scale_one_no_hook {k : AttnKind} {cp : Comp} :
    (∀ (m : PState) (ea : Bool) (ab : String) (ec : Bool) (cb : String)
        (es : Bool) (sb : String) (sc : Scales) (ca cc cs : String)
        (s' : PState),
      HuMoAudioAttentionControlV4.apply_attention_control m ea ab ec cb es
        sb sc ca cc cs = .ok s' →
      sc.get k cp = 1 →
      ∀ h : Hook, h ∈ s'.active → h.loc.kind = k → h.loc.comp = cp →
        h ∈ m.active) ∧
    (∀ (m : PState) (ea : Bool) (ab : String) (ec : Bool) (cb : String)
        (es : Bool) (sb : String) (sc : Scales) (ca cc cs : Option String)
        (s' : PState),
      HuMoAudioAttentionBoostV3.boost_attention m ea ab ec cb es sb sc
        ca cc cs = .ok s' →
      sc.get k cp = 1 →
      ∀ h : Hook, h ∈ s'.active → h.loc.kind = k → h.loc.comp = cp →
        h ∈ m.active) := by
  constructor
  · intro m ea ab ec cb es sb sc ca cc cs s' hok hone h hmem hk hcp
    obtain ⟨aIdx, cIdx, sIdx, _, _, _, _, _, _, hres⟩ := v4_ok_inv hok
    subst hres
    obtain ⟨_, _, _, hact, _, _, _⟩ := v4Result_spec m aIdx cIdx sIdx sc
    rw [hact] at hmem
    rcases List.mem_append.mp hmem with hmem | hmem
    · exact (v4Clear_mem_active.mp hmem).1
    · exfalso
      obtain ⟨_, _, hls⟩ := mem_mkHooks hmem
      obtain ⟨_, hsc, hne⟩ := mem_hookLocs_of hls
      rw [hk, hcp, hone] at hsc
      exact hne hsc
  · intro m ea ab ec cb es sb sc ca cc cs s' hok hone h hmem hk hcp
    obtain ⟨s1, aIdx, cIdx, sIdx, hclear, _, _, _, _, _, _, hres⟩ :=
      v3_ok_inv hok
    subst hres
    obtain ⟨_, _, _, _, _, _, hmemC⟩ := v3Clear_ok_inv hclear
    obtain ⟨_, _, _, hact, _, _, _⟩ := v3Result_spec s1 aIdx cIdx sIdx sc
    rw [hact] at hmem
    rcases List.mem_append.mp hmem with hmem | hmem
    · exact ((hmemC h).mp hmem).1
    · exfalso
      obtain ⟨_, _, hls⟩ := mem_mkHooks hmem
      obtain ⟨_, hsc, hne⟩ := mem_hookLocs_of hls
      rw [hk, hcp, hone] at hsc
      exact hne hsc

/-- Witness for C3's amended claim: with the audio `v` factor set to 1.0
(and all other factors 2.0) on a one-block model, every audio-`v` hook in
the resulting state was already there before — and concretely the runs
succeed. -/
theorem scale_one_no_hook_witness :
    (∀ h : Hook,
      h ∈ (HuMoAudioAttentionControlV4.v4Result
        ⟨[⟨some ⟨true, true, true, true⟩, some ⟨true, true, true, true⟩,
           some ⟨true, true, true, true⟩⟩], [], 0, [], none, none, none⟩
        [0] [] [] ⟨2, 2, 1, 2, 2, 2, 2, 2, 2, 2, 2, 2⟩).active →
      h.loc.kind = .audio → h.loc.comp = .v →
      h ∈ (⟨[⟨some ⟨true, true, true, true⟩, some ⟨true, true, true, true⟩,
        some ⟨true, true, true, true⟩⟩], [], 0, [], none, none,
        none⟩ : PState).active) ∧
    (∀ h : Hook,
      h ∈ (HuMoAudioAttentionBoostV3.v3Result
        ⟨[⟨some ⟨true, true, true, true⟩, some ⟨true, true, true, true⟩,
           some ⟨true, true, true, true⟩⟩], [], 0, [], none, none, none⟩
        [0] [] [] ⟨2, 2, 1, 2, 2, 2, 2, 2, 2, 2, 2, 2⟩).active →
      h.loc.kind = .audio → h.loc.comp = .v →
      h ∈ (⟨[⟨some ⟨true, true, true, true⟩, some ⟨true, true, true, true⟩,
        some ⟨true, true, true, true⟩⟩], [], 0, [], none, none,
        none⟩ : PState).active) := by
  constructor
  · exact scale_one_no_hook.1
      ⟨[⟨some ⟨true, true, true, true⟩, some ⟨true, true, true, true⟩,
         some ⟨true, true, true, true⟩⟩], [], 0, [], none, none, none⟩
      true "custom" false "x" false "x" ⟨2, 2, 1, 2, 2, 2, 2, 2, 2, 2, 2, 2⟩
      "0" "" "" _ (by decide) (by decide)
  · exact scale_one_no_hook.2
      ⟨[⟨some ⟨true, true, true, true⟩, some ⟨true, true, true, true⟩,
         some ⟨true, true, true, true⟩⟩], [], 0, [], none, none, none⟩
      true "custom" false "x" false "x" ⟨2, 2, 1, 2, 2, 2, 2, 2, 2, 2, 2, 2⟩
      (some "0") none none _ (by decide) (by decide)

/-! ## Claim C5: out-of-range block indices -/

/-- Helper: a patched block index is in range. -/
theorem suppressPatch_lt {blocks : List Block} {bi : ℕ}
    (h : HuMoLipsyncSuppressAttn.suppressPatch blocks bi = true) :
    bi < blocks.length := by
  unfold HuMoLipsyncSuppressAttn.suppressPatch at h
  split at h
  · exact absurd h (by simp)
  · next hle => omega

/-- C5 counterexample: the claim says requesting an out-of-range block
index never makes a procedure raise, but on a model with no blocks the
suppression procedure skips every index (silently, with no per-index
diagnostic) and then raises `IndexError` from its final
`patched_blocks[0]` report. -/
theorem suppress_out_of_range_raises :
    HuMoLipsyncSuppressAttn.suppress ⟨[], [], 0, [], none, none, none⟩
      true 2 0 0 = .error "IndexError" := by decide

/-- C5 amended: in all three procedures a requested block index `≥ L` is
skipped and the loop continues with the remaining selected indices (V4
and V3 print a per-index warning, the suppression node skips silently);
V4 and V3 return normally regardless of out-of-range indices, and every
hook they attach lands at an index `< L`; the suppression node also only
patches indices `< L`, but raises an `IndexError` from its final report
when no block at all was patched. -/
theorem out_of_range_blocks_skipped :
    (∀ (blocks : List Block) (aSel cSel sSel : List ℤ) (sc : Scales)
        (is : List ℤ),
      is.flatMap (blockLocs blocks aSel cSel sSel sc) =
        (is.filter (fun bi => bi < (blocks.length : ℤ))).flatMap
          (blockLocs blocks aSel cSel sSel sc)) ∧
    (∀ (blocks : List Block) (aSel cSel sSel : List ℤ) (sc : Scales)
        (bi : ℤ), (blocks.length : ℤ) ≤ bi →
      blockLocs blocks aSel cSel sSel sc bi = []) ∧
    (∀ (m : PState) (ea : Bool) (ab : String) (ec : Bool) (cb : String)
        (es : Bool) (sb : String) (sc : Scales) (ca cc cs : String)
        (aIdx cIdx sIdx : List ℤ),
      (if ea then HuMoAudioAttentionControlV4.parse_block_range ab ca
        else .ok []) = .ok aIdx →
      (if ec then HuMoAudioAttentionControlV4.parse_block_range cb cc
        else .ok []) = .ok cIdx →
      (if es then HuMoAudioAttentionControlV4.parse_block_range sb cs
        else .ok []) = .ok sIdx →
      ¬(ea = true ∧ aIdx = []) → ¬(ec = true ∧ cIdx = []) →
      ¬(es = true ∧ sIdx = []) →
      HuMoAudioAttentionControlV4.apply_attention_control m ea ab ec cb es
          sb sc ca cc cs =
        .ok (HuMoAudioAttentionControlV4.v4Result m aIdx cIdx sIdx sc) ∧
      ∀ h : Hook,
        h ∈ (HuMoAudioAttentionControlV4.v4Result m aIdx cIdx sIdx
          sc).active →
        h ∉ m.active → h.loc.blockIdx < m.blocks.length) ∧
    (∀ (m s1 : PState) (ea : Bool) (ab : String) (ec : Bool) (cb : String)
        (es : Bool) (sb : String) (sc : Scales) (ca cc cs : Option String)
        (aIdx cIdx sIdx : List ℤ),
      HuMoAudioAttentionBoostV3.v3Clear m = .ok s1 →
      (if ea then HuMoAudioAttentionBoostV3.parse_block_range ab ca
        else .ok []) = .ok aIdx →
      (if ec then HuMoAudioAttentionBoostV3.parse_block_range cb cc
        else .ok []) = .ok cIdx →
      (if es then HuMoAudioAttentionBoostV3.parse_block_range sb cs
        else .ok []) = .ok sIdx →
      ¬(ea = true ∧ aIdx = []) → ¬(ec = true ∧ cIdx = []) →
      ¬(es = true ∧ sIdx = []) →
      HuMoAudioAttentionBoostV3.boost_attention m ea ab ec cb es sb sc
          ca cc cs =
        .ok (HuMoAudioAttentionBoostV3.v3Result s1 aIdx cIdx sIdx sc) ∧
      ∀ h : Hook,
        h ∈ (HuMoAudioAttentionBoostV3.v3Result s1 aIdx cIdx sIdx
          sc).active →
        h ∉ m.active → h.loc.blockIdx < m.blocks.length) ∧
    (∀ (m : PState) (str : ℚ) (bs be : ℕ),
      (HuMoLipsyncSuppressAttn.suppressPatched
          (HuMoLipsyncSuppressAttn.suppressClear m).blocks bs be ≠ [] →
        HuMoLipsyncSuppressAttn.suppress m true str bs be =
          .ok (HuMoLipsyncSuppressAttn.suppressResult m str bs be) ∧
        ∀ h : Hook,
          h ∈ (HuMoLipsyncSuppressAttn.suppressResult m str bs be).active →
          h ∉ m.active → h.loc.blockIdx < m.blocks.length) ∧
      (HuMoLipsyncSuppressAttn.suppressPatched
          (HuMoLipsyncSuppressAttn.suppressClear m).blocks bs be = [] →
        HuMoLipsyncSuppressAttn.suppress m true str bs be =
          .error "IndexError")) := by
  refine ⟨fun blocks a c s sc is => flatMap_blockLocs_filter is,
    fun blocks a c s sc bi h => blockLocs_of_ge h, ?_, ?_, ?_⟩
  · intro m ea ab ec cb es sb sc ca cc cs aIdx cIdx sIdx hA hC hS h1 h2 h3
    refine ⟨v4_eq_ok hA hC hS h1 h2 h3, ?_⟩
    intro h hmem hnot
    obtain ⟨_, _, _, hact, _, _, _⟩ := v4Result_spec m aIdx cIdx sIdx sc
    rw [hact] at hmem
    rcases List.mem_append.mp hmem with hmem | hmem
    · exact absurd (v4Clear_mem_active.mp hmem).1 hnot
    · obtain ⟨_, _, hls⟩ := mem_mkHooks hmem
      exact (mem_hookLocs_of hls).1
  · intro m s1 ea ab ec cb es sb sc ca cc cs aIdx cIdx sIdx hclear hA hC hS
      h1 h2 h3
    refine ⟨v3_eq_ok hclear hA hC hS h1 h2 h3, ?_⟩
    intro h hmem hnot
    obtain ⟨hblk, _, _, _, _, _, hmemC⟩ := v3Clear_ok_inv hclear
    obtain ⟨_, _, _, hact, _, _, _⟩ := v3Result_spec s1 aIdx cIdx sIdx sc
    rw [hact] at hmem
    rcases List.mem_append.mp hmem with hmem | hmem
    · exact absurd ((hmemC h).mp hmem).1 hnot
    · obtain ⟨_, _, hls⟩ := mem_mkHooks hmem
      rw [← hblk]
      exact (mem_hookLocs_of hls).1
  · intro m str bs be
    refine ⟨?_, fun hemp => suppress_err_of_empty hemp⟩
    intro hne
    refine ⟨suppress_eq_ok hne, ?_⟩
    intro h hmem hnot
    obtain ⟨hblk, _, _, hact, _, _, _⟩ := suppressResult_spec m str bs be
    rw [hact] at hmem
    rcases List.mem_append.mp hmem with hmem | hmem
    · exact absurd (suppressClear_mem_active.mp hmem).1 hnot
    · obtain ⟨_, _, hls⟩ := mem_mkHooks hmem
      rw [List.mem_map] at hls
      obtain ⟨bi, hbi, hx⟩ := hls
      unfold HuMoLipsyncSuppressAttn.suppressPatched at hbi
      rw [List.mem_filter] at hbi
      have hlt := suppressPatch_lt hbi.2
      have hloc : (⟨bi, .audio, .o⟩ : Loc) = h.loc := congrArg Prod.fst hx
      rw [← hloc]
      exact hlt

/-- Witness for C5's amended claim on a model with zero blocks and the
out-of-range request `50`: V4 and V3 return normally; the suppression
node raises its report error. -/
theorem out_of_range_blocks_skipped_witness :
    HuMoAudioAttentionControlV4.apply_attention_control
      ⟨[], [], 0, [], none, none, none⟩ true "custom" false "x" false "x"
      ⟨2, 2, 2, 2, 2, 2, 2, 2, 2, 2, 2, 2⟩ "50" "" "" =
      .ok (HuMoAudioAttentionControlV4.v4Result
        ⟨[], [], 0, [], none, none, none⟩ [50] [] []
        ⟨2, 2, 2, 2, 2, 2, 2, 2, 2, 2, 2, 2⟩) ∧
    HuMoAudioAttentionBoostV3.boost_attention
      ⟨[], [], 0, [], none, none, none⟩ true "custom" false "x" false "x"
      ⟨2, 2, 2, 2, 2, 2, 2, 2, 2, 2, 2, 2⟩ (some "50") none none =
      .ok (HuMoAudioAttentionBoostV3.v3Result
        ⟨[], [], 0, [], none, none, none⟩ [50] [] []
        ⟨2, 2, 2, 2, 2, 2, 2, 2, 2, 2, 2, 2⟩) ∧
    HuMoLipsyncSuppressAttn.suppress ⟨[], [], 0, [], none, none, none⟩
      true 2 0 0 = .error "IndexError" := by
  refine ⟨(out_of_range_blocks_skipped.2.2.1 ⟨[], [], 0, [], none, none,
      none⟩ true "custom" false "x" false "x"
      ⟨2, 2, 2, 2, 2, 2, 2, 2, 2, 2, 2, 2⟩ "50" "" "" [50] [] []
      (by decide) (by decide) (by decide) (by decide) (by decide)
      (by decide)).1,
    (out_of_range_blocks_skipped.2.2.2.1 ⟨[], [], 0, [], none, none, none⟩
      ⟨[], [], 0, [], none, none, none⟩ true "custom" false "x" false "x"
      ⟨2, 2, 2, 2, 2, 2, 2, 2, 2, 2, 2, 2⟩ (some "50") none none [50] [] []
      (by decide) (by decide) (by decide) (by decide) (by decide)
      (by decide) (by decide)).1,
    (out_of_range_blocks_skipped.2.2.2.2 ⟨[], [], 0, [], none, none, none⟩
      2 0 0).2 (by decide)⟩

/-! ## Claim C7: failure of stale-hook removal -/

/-- C7 counterexample: the claim says every attachment procedure swallows
hook-removal failures, but `boost_attention` removes its tracked hooks
with no `try/except`: one invalidated handle raises out of the whole
procedure. -/
theorem boost_stale_handle_raises :
    HuMoAudioAttentionBoostV3.boost_attention
      ⟨[], [⟨5, ⟨0, .audio, .q⟩, 2⟩], 6, [5], none, none, some [5]⟩
      false "x" false "x" false "x" ⟨2, 2, 2, 2, 2, 2, 2, 2, 2, 2, 2, 2⟩
      none none none = .error "RuntimeError" := by decide

/-- C7 amended: the V4 control procedure and the lip-sync suppression
procedure swallow stale-handle removal failures silently — they return
normally whatever handles are invalid, still remove every removable
tracked hook, and attach their new hooks; the V3 boost procedure,
however, propagates the first removal failure and stops. -/
theorem stale_handle_removal :
    (∀ (m : PState) (ea : Bool) (ab : String) (ec : Bool) (cb : String)
        (es : Bool) (sb : String) (sc : Scales) (ca cc cs : String)
        (aIdx cIdx sIdx : List ℤ),
      (if ea then HuMoAudioAttentionControlV4.parse_block_range ab ca
        else .ok []) = .ok aIdx →
      (if ec then HuMoAudioAttentionControlV4.parse_block_range cb cc
        else .ok []) = .ok cIdx →
      (if es then HuMoAudioAttentionControlV4.parse_block_range sb cs
        else .ok []) = .ok sIdx →
      ¬(ea = true ∧ aIdx = []) → ¬(ec = true ∧ cIdx = []) →
      ¬(es = true ∧ sIdx = []) →
      HuMoAudioAttentionControlV4.apply_attention_control m ea ab ec cb es
          sb sc ca cc cs =
        .ok (HuMoAudioAttentionControlV4.v4Result m aIdx cIdx sIdx sc) ∧
      ∀ h : Hook, h ∈ m.active → h.id < m.nextId →
        (h.id ∈ m.ctrlHooks.getD [] ∨ h.id ∈ m.suppHooks.getD []) →
        h.id ∉ m.invalid →
        h ∉ (HuMoAudioAttentionControlV4.v4Result m aIdx cIdx sIdx
          sc).active) ∧
    (∀ (m : PState) (str : ℚ) (bs be : ℕ),
      HuMoLipsyncSuppressAttn.suppressPatched
          (HuMoLipsyncSuppressAttn.suppressClear m).blocks bs be ≠ [] →
      HuMoLipsyncSuppressAttn.suppress m true str bs be =
        .ok (HuMoLipsyncSuppressAttn.suppressResult m str bs be) ∧
      ∀ h : Hook, h ∈ m.active → h.id < m.nextId →
        (h.id ∈ m.ctrlHooks.getD [] ∨ h.id ∈ m.suppHooks.getD []) →
        h.id ∉ m.invalid →
        h ∉ (HuMoLipsyncSuppressAttn.suppressResult m str bs be).active) ∧
    (∀ (m : PState) (ea : Bool) (ab : String) (ec : Bool) (cb : String)
        (es : Bool) (sb : String) (sc : Scales) (ca cc cs : Option String),
      (∃ i ∈ m.boostHooks.getD [], i ∈ m.invalid) →
      ∃ e, HuMoAudioAttentionBoostV3.boost_attention m ea ab ec cb es sb sc
        ca cc cs = .error e) := by
  refine ⟨?_, ?_, ?_⟩
  · intro m ea ab ec cb es sb sc ca cc cs aIdx cIdx sIdx hA hC hS h1 h2 h3
    refine ⟨v4_eq_ok hA hC hS h1 h2 h3, ?_⟩
    intro h _ hlt htr hval hmem
    obtain ⟨_, _, _, hact, _, _, _⟩ := v4Result_spec m aIdx cIdx sIdx sc
    rw [hact] at hmem
    rcases List.mem_append.mp hmem with hmem | hmem
    · obtain ⟨_, hc, hs⟩ := v4Clear_mem_active.mp hmem
      rcases htr with htr | htr
      · exact hval (hc htr)
      · exact hval (hs htr)
    · obtain ⟨hge, _, _⟩ := mem_mkHooks hmem
      omega
  · intro m str bs be hne
    refine ⟨suppress_eq_ok hne, ?_⟩
    intro h _ hlt htr hval hmem
    obtain ⟨_, _, _, hact, _, _, _⟩ := suppressResult_spec m str bs be
    rw [hact] at hmem
    rcases List.mem_append.mp hmem with hmem | hmem
    · obtain ⟨_, hc, hs⟩ := suppressClear_mem_active.mp hmem
      rcases htr with htr | htr
      · exact hval (hc htr)
      · exact hval (hs htr)
    · obtain ⟨hge, _, _⟩ := mem_mkHooks hmem
      omega
  · intro m ea ab ec cb es sb sc ca cc cs hstale
    obtain ⟨i, hi, hinv⟩ := hstale
    rcases hb : m.boostHooks with _ | ids
    · rw [hb] at hi
      cases hi
    · rw [hb, Option.getD_some] at hi
      obtain ⟨e, herr⟩ := removeIdsStrict_err ⟨i, hi, hinv⟩ m.active
      refine ⟨e, ?_⟩
      unfold HuMoAudioAttentionBoostV3.boost_attention
        HuMoAudioAttentionBoostV3.v3Clear
      simp only [hb, herr]

/-- Witness for C7's amended claim: a model tracking handles `0` (stale)
and `1` (valid) under the shared keys — V4 and the suppression node
return normally and hook `1` is gone; the V3 boost node with a stale
tracked handle raises. -/
theorem stale_handle_removal_witness :
    HuMoAudioAttentionControlV4.apply_attention_control
      ⟨[], [⟨0, ⟨0, .audio, .q⟩, 2⟩, ⟨1, ⟨0, .audio, .k⟩, 2⟩], 2, [0],
        some [0, 1], none, none⟩ true "custom" false "x" false "x"
      ⟨2, 2, 2, 2, 2, 2, 2, 2, 2, 2, 2, 2⟩ "50" "" "" =
      .ok (HuMoAudioAttentionControlV4.v4Result
        ⟨[], [⟨0, ⟨0, .audio, .q⟩, 2⟩, ⟨1, ⟨0, .audio, .k⟩, 2⟩], 2, [0],
          some [0, 1], none, none⟩ [50] [] []
        ⟨2, 2, 2, 2, 2, 2, 2, 2, 2, 2, 2, 2⟩) ∧
    (⟨1, ⟨0, .audio, .k⟩, 2⟩ : Hook) ∉
      (HuMoAudioAttentionControlV4.v4Result
        ⟨[], [⟨0, ⟨0, .audio, .q⟩, 2⟩, ⟨1, ⟨0, .audio, .k⟩, 2⟩], 2, [0],
          some [0, 1], none, none⟩ [50] [] []
        ⟨2, 2, 2, 2, 2, 2, 2, 2, 2, 2, 2, 2⟩).active ∧
    HuMoLipsyncSuppressAttn.suppress
      ⟨[⟨some ⟨true, true, true, true⟩, none, none⟩],
        [⟨0, ⟨0, .audio, .q⟩, 2⟩, ⟨1, ⟨0, .audio, .k⟩, 2⟩], 2, [0],
        none, some [0, 1], none⟩ true 2 0 0 =
      .ok (HuMoLipsyncSuppressAttn.suppressResult
        ⟨[⟨some ⟨true, true, true, true⟩, none, none⟩],
          [⟨0, ⟨0, .audio, .q⟩, 2⟩, ⟨1, ⟨0, .audio, .k⟩, 2⟩], 2, [0],
          none, some [0, 1], none⟩ 2 0 0) ∧
    (⟨1, ⟨0, .audio, .k⟩, 2⟩ : Hook) ∉
      (HuMoLipsyncSuppressAttn.suppressResult
        ⟨[⟨some ⟨true, true, true, true⟩, none, none⟩],
          [⟨0, ⟨0, .audio, .q⟩, 2⟩, ⟨1, ⟨0, .audio, .k⟩, 2⟩], 2, [0],
          none, some [0, 1], none⟩ 2 0 0).active ∧
    (∃ e, HuMoAudioAttentionBoostV3.boost_attention
      ⟨[], [⟨5, ⟨0, .audio, .q⟩, 2⟩], 6, [5], none, none, some [5]⟩
      false "x" false "x" false "x" ⟨2, 2, 2, 2, 2, 2, 2, 2, 2, 2, 2, 2⟩
      none none none = .error e) := by
  obtain ⟨hok4, hrm4⟩ := stale_handle_removal.1
    ⟨[], [⟨0, ⟨0, .audio, .q⟩, 2⟩, ⟨1, ⟨0, .audio, .k⟩, 2⟩], 2, [0],
      some [0, 1], none, none⟩ true "custom" false "x" false "x"
    ⟨2, 2, 2, 2, 2, 2, 2, 2, 2, 2, 2, 2⟩ "50" "" "" [50] [] []
    (by decide) (by decide) (by decide) (by decide) (by decide) (by decide)
  obtain ⟨hokS, hrmS⟩ := stale_handle_removal.2.1
    ⟨[⟨some ⟨true, true, true, true⟩, none, none⟩],
      [⟨0, ⟨0, .audio, .q⟩, 2⟩, ⟨1, ⟨0, .audio, .k⟩, 2⟩], 2, [0],
      none, some [0, 1], none⟩ 2 0 0 (by decide)
  refine ⟨hok4, hrm4 _ (by decide) (by decide) (by decide) (by decide),
    hokS, hrmS _ (by decide) (by decide) (by decide) (by decide),
    stale_handle_removal.2.2
      ⟨[], [⟨5, ⟨0, .audio, .q⟩, 2⟩], 6, [5], none, none, some [5]⟩
      false "x" false "x" false "x" ⟨2, 2, 2, 2, 2, 2, 2, 2, 2, 2, 2, 2⟩
      none none none ⟨5, by decide, by decide⟩⟩

/-! ## Claim C2: repeated invocation resets instead of compounding -/

/-- Helper: clearing an optional bookkeeping attribute leaves an empty
tracked list whichever state it was in. -/
theorem getD_map_nil (o : Option (List ℕ)) :
    (o.map fun _ => ([] : List ℕ)).getD [] = [] := by
  cases o <;> rfl

/-- C2: calling the same attachment procedure twice (any factors first,
all factors 1.0 second) leaves zero tracked hooks: the second invocation
first removes every hook the first attached, attaches none, and after any
invocation the bookkeeping list holds exactly the hooks that invocation
attached (the tracked ids are exactly the ids of the active hooks newer
than the pre-call counter).  Stated for both the V4 control node
(`_attention_control_hooks`) and the V3 boost node
(`_attention_boost_hooks`). -/
theorem repeat_invocation_resets :
    (∀ (m s1 s2 : PState) (ea : Bool) (ab : String) (ec : Bool)
        (cb : String) (es : Bool) (sb : String) (sc : Scales)
        (ca cc cs : String),
      (∀ h : Hook, h ∈ m.active → h.id < m.nextId) → m.invalid = [] →
      HuMoAudioAttentionControlV4.apply_attention_control m ea ab ec cb es
        sb sc ca cc cs = .ok s1 →
      HuMoAudioAttentionControlV4.apply_attention_control s1 ea ab ec cb es
        sb ⟨1, 1, 1, 1, 1, 1, 1, 1, 1, 1, 1, 1⟩ ca cc cs = .ok s2 →
      s1.ctrlHooks = some ((s1.active.filter
        (fun h => decide (m.nextId ≤ h.id))).map Hook.id) ∧
      s2.ctrlHooks = some [] ∧
      (∀ h : Hook, h ∈ s2.active → h ∈ m.active)) ∧
    (∀ (m s1 s2 : PState) (ea : Bool) (ab : String) (ec : Bool)
        (cb : String) (es : Bool) (sb : String) (sc : Scales)
        (ca cc cs : Option String),
      (∀ h : Hook, h ∈ m.active → h.id < m.nextId) → m.invalid = [] →
      HuMoAudioAttentionBoostV3.boost_attention m ea ab ec cb es sb sc
        ca cc cs = .ok s1 →
      HuMoAudioAttentionBoostV3.boost_attention s1 ea ab ec cb es sb
        ⟨1, 1, 1, 1, 1, 1, 1, 1, 1, 1, 1, 1⟩ ca cc cs = .ok s2 →
      s1.boostHooks = some ((s1.active.filter
        (fun h => decide (m.nextId ≤ h.id))).map Hook.id) ∧
      s2.boostHooks = some [] ∧
      (∀ h : Hook, h ∈ s2.active → h ∈ m.active)) := by
  have hone : ∀ k cp, (⟨1, 1, 1, 1, 1, 1, 1, 1, 1, 1, 1, 1⟩ : Scales).get
      k cp = 1 := by
    intro k cp
    cases k <;> cases cp <;> rfl
  constructor
  · intro m s1 s2 ea ab ec cb es sb sc ca cc cs hwf hinv h1 h2
    obtain ⟨a1, c1, i1, _, _, _, _, _, _, hres1⟩ := v4_ok_inv h1
    obtain ⟨a2, c2, i2, _, _, _, _, _, _, hres2⟩ := v4_ok_inv h2
    subst hres1
    obtain ⟨hblk1, hinv1, _, hact1, hctrl1, _, _⟩ :=
      v4Result_spec m a1 c1 i1 sc
    have hfil : (HuMoAudioAttentionControlV4.v4Result m a1 c1 i1
        sc).active.filter (fun h => decide (m.nextId ≤ h.id)) =
        mkHooks m.nextId (hookLocs m.blocks a1 c1 i1 sc) := by
      rw [hact1, List.filter_append]
      have hnil : (HuMoAudioAttentionControlV4.v4Clear m).active.filter
          (fun h => decide (m.nextId ≤ h.id)) = [] := by
        refine List.filter_eq_nil_iff.mpr ?_
        intro h hm
        have := hwf h (v4Clear_mem_active.mp hm).1
        simp only [decide_eq_true_eq]
        omega
      have hself : (mkHooks m.nextId (hookLocs m.blocks a1 c1 i1
          sc)).filter (fun h => decide (m.nextId ≤ h.id)) =
          mkHooks m.nextId (hookLocs m.blocks a1 c1 i1 sc) := by
        refine List.filter_eq_self.mpr ?_
        intro h hm
        obtain ⟨hge, _, _⟩ := mem_mkHooks hm
        simp only [decide_eq_true_eq]
        omega
      rw [hnil, hself, List.nil_append]
    refine ⟨by rw [hctrl1, hfil], ?_, ?_⟩
    · subst hres2
      obtain ⟨_, _, _, _, hctrl2, _, _⟩ :=
        v4Result_spec (HuMoAudioAttentionControlV4.v4Result m a1 c1 i1 sc)
          a2 c2 i2 ⟨1, 1, 1, 1, 1, 1, 1, 1, 1, 1, 1, 1⟩
      rw [hctrl2, hookLocs_ones hone]
      rfl
    · subst hres2
      intro h hm
      obtain ⟨_, _, _, hact2, _, _, _⟩ :=
        v4Result_spec (HuMoAudioAttentionControlV4.v4Result m a1 c1 i1 sc)
          a2 c2 i2 ⟨1, 1, 1, 1, 1, 1, 1, 1, 1, 1, 1, 1⟩
      rw [hact2, hookLocs_ones hone] at hm
      have hm' : h ∈ (HuMoAudioAttentionControlV4.v4Clear
          (HuMoAudioAttentionControlV4.v4Result m a1 c1 i1 sc)).active := by
        simpa [mkHooks] using hm
      obtain ⟨hm1, hc1, _⟩ := v4Clear_mem_active.mp hm'
      rw [hact1] at hm1
      rcases List.mem_append.mp hm1 with hm1 | hm1
      · exact (v4Clear_mem_active.mp hm1).1
      · exfalso
        have hid : h.id ∈ (mkHooks m.nextId
            (hookLocs m.blocks a1 c1 i1 sc)).map Hook.id :=
          List.mem_map_of_mem Hook.id hm1
        have := hc1 (by rw [hctrl1]; exact hid)
        rw [hinv1, hinv] at this
        cases this
  · intro m s1 s2 ea ab ec cb es sb sc ca cc cs hwf hinv h1 h2
    obtain ⟨sC1, a1, c1, i1, hclear1, _, _, _, _, _, _, hres1⟩ :=
      v3_ok_inv h1
    obtain ⟨sC2, a2, c2, i2, hclear2, _, _, _, _, _, _, hres2⟩ :=
      v3_ok_inv h2
    subst hres1
    obtain ⟨hCblk, hCnid, hCinv, _, _, hCboost, hCmem⟩ :=
      v3Clear_ok_inv hclear1
    obtain ⟨hblk1, hinv1, _, hact1, _, _, hboost1⟩ :=
      v3Result_spec sC1 a1 c1 i1 sc
    rw [hCboost, getD_map_nil, List.nil_append] at hboost1
    have hfil : (HuMoAudioAttentionBoostV3.v3Result sC1 a1 c1 i1
        sc).active.filter (fun h => decide (m.nextId ≤ h.id)) =
        mkHooks sC1.nextId (hookLocs sC1.blocks a1 c1 i1 sc) := by
      rw [hact1, List.filter_append]
      have hnil : sC1.active.filter
          (fun h => decide (m.nextId ≤ h.id)) = [] := by
        refine List.filter_eq_nil_iff.mpr ?_
        intro h hm
        have := hwf h ((hCmem h).mp hm).1
        simp only [decide_eq_true_eq]
        omega
      have hself : (mkHooks sC1.nextId (hookLocs sC1.blocks a1 c1 i1
          sc)).filter (fun h => decide (m.nextId ≤ h.id)) =
          mkHooks sC1.nextId (hookLocs sC1.blocks a1 c1 i1 sc) := by
        refine List.filter_eq_self.mpr ?_
        intro h hm
        obtain ⟨hge, _, _⟩ := mem_mkHooks hm
        simp only [decide_eq_true_eq]
        omega
      rw [hnil, hself, List.nil_append]
    refine ⟨by rw [hboost1, hfil, hCnid], ?_, ?_⟩
    · subst hres2
      obtain ⟨_, _, _, _, _, hC2boost, hC2mem⟩ := v3Clear_ok_inv hclear2
      obtain ⟨_, _, _, _, _, _, hboost2⟩ :=
        v3Result_spec sC2 a2 c2 i2 ⟨1, 1, 1, 1, 1, 1, 1, 1, 1, 1, 1, 1⟩
      rw [hboost2, hC2boost, hboost1, getD_map_nil, hookLocs_ones hone,
        List.nil_append]
      rfl
    · subst hres2
      intro h hm
      obtain ⟨_, _, _, _, _, hC2boost, hC2mem⟩ := v3Clear_ok_inv hclear2
      obtain ⟨_, _, _, hact2, _, _, _⟩ :=
        v3Result_spec sC2 a2 c2 i2 ⟨1, 1, 1, 1, 1, 1, 1, 1, 1, 1, 1, 1⟩
      rw [hact2, hookLocs_ones hone] at hm
      have hm' : h ∈ sC2.active := by
        simpa [mkHooks] using hm
      obtain ⟨hm1, hnotb⟩ := (hC2mem h).mp hm'
      rw [hboost1, Option.getD_some] at hnotb
      rw [hact1] at hm1
      rcases List.mem_append.mp hm1 with hm1 | hm1
      · exact ((hCmem h).mp hm1).1
      · exact absurd (List.mem_map_of_mem Hook.id hm1) hnotb

/-- Witness for C2 on a one-block model whose audio attention exposes
only `q`: the first invocation (factors 2.0) attaches one hook and tracks
exactly it; the second invocation (factors 1.0) leaves zero tracked hooks
and no hook from either invocation active. -/
theorem repeat_invocation_resets_witness :
    ((⟨[⟨some ⟨true, false, false, false⟩, none, none⟩],
        [⟨0, ⟨0, .audio, .q⟩, 2⟩], 1, [], some [0], none,
        none⟩ : PState).ctrlHooks =
      some (((⟨[⟨some ⟨true, false, false, false⟩, none, none⟩],
        [⟨0, ⟨0, .audio, .q⟩, 2⟩], 1, [], some [0], none,
        none⟩ : PState).active.filter
          (fun h => decide ((0 : ℕ) ≤ h.id))).map Hook.id)) ∧
    ((⟨[⟨some ⟨true, false, false, false⟩, none, none⟩], [], 1, [],
        some [], none, none⟩ : PState).ctrlHooks = some []) ∧
    (∀ h : Hook,
      h ∈ (⟨[⟨some ⟨true, false, false, false⟩, none, none⟩], [], 1, [],
        some [], none, none⟩ : PState).active →
      h ∈ (⟨[⟨some ⟨true, false, false, false⟩, none, none⟩], [], 0, [],
        none, none, none⟩ : PState).active) ∧
    ((⟨[⟨some ⟨true, false, false, false⟩, none, none⟩],
        [⟨0, ⟨0, .audio, .q⟩, 2⟩], 1, [], none, none,
        some [0]⟩ : PState).boostHooks =
      some (((⟨[⟨some ⟨true, false, false, false⟩, none, none⟩],
        [⟨0, ⟨0, .audio, .q⟩, 2⟩], 1, [], none, none,
        some [0]⟩ : PState).active.filter
          (fun h => decide ((0 : ℕ) ≤ h.id))).map Hook.id)) ∧
    ((⟨[⟨some ⟨true, false, false, false⟩, none, none⟩], [], 1, [],
        none, none, some []⟩ : PState).boostHooks = some []) := by
  obtain ⟨w1, w2, w3⟩ := repeat_invocation_resets.1
    ⟨[⟨some ⟨true, false, false, false⟩, none, none⟩], [], 0, [],
      none, none, none⟩
    ⟨[⟨some ⟨true, false, false, false⟩, none, none⟩],
      [⟨0, ⟨0, .audio, .q⟩, 2⟩], 1, [], some [0], none, none⟩
    ⟨[⟨some ⟨true, false, false, false⟩, none, none⟩], [], 1, [],
      some [], none, none⟩
    true "custom" false "x" false "x"
    ⟨2, 2, 2, 2, 2, 2, 2, 2, 2, 2, 2, 2⟩ "0" "" ""
    (by intro h hm; exact absurd hm (List.not_mem_nil h)) rfl
    (by decide) (by decide)
  obtain ⟨v1, v2, _⟩ := repeat_invocation_resets.2
    ⟨[⟨some ⟨true, false, false, false⟩, none, none⟩], [], 0, [],
      none, none, none⟩
    ⟨[⟨some ⟨true, false, false, false⟩, none, none⟩],
      [⟨0, ⟨0, .audio, .q⟩, 2⟩], 1, [], none, none, some [0]⟩
    ⟨[⟨some ⟨true, false, false, false⟩, none, none⟩], [], 1, [],
      none, none, some []⟩
    true "custom" false "x" false "x"
    ⟨2, 2, 2, 2, 2, 2, 2, 2, 2, 2, 2, 2⟩ (some "0") none none
    (by intro h hm; exact absurd hm (List.not_mem_nil h)) rfl
    (by decide) (by decide)
  exact ⟨w1, w2, w3, v1, v2⟩

/-! ## Claim C6: the two nodes clear each other's hooks -/

/-- C6: running the lip-sync suppression procedure after the general
control procedure, or vice versa, removes every hook the other procedure
recorded under the shared bookkeeping keys before attaching its own: the
other procedure's key is reset to the empty list, and no hook attached by
the first procedure (an id in the first run's fresh-id window) is still
active after the second run — no component carries hooks from both. -/
theorem cross_procedure_clearing :
    ∀ (m s1 s2 t1 t2 : PState) (ea : Bool) (ab : String) (ec : Bool)
      (cb : String) (es : Bool) (sb : String) (sc : Scales)
      (ca cc cs : String) (str : ℚ) (bs be : ℕ),
      (∀ h : Hook, h ∈ m.active → h.id < m.nextId) → m.invalid = [] →
      HuMoAudioAttentionControlV4.apply_attention_control m ea ab ec cb es
        sb sc ca cc cs = .ok s1 →
      HuMoLipsyncSuppressAttn.suppress s1 true str bs be = .ok s2 →
      HuMoLipsyncSuppressAttn.suppress m true str bs be = .ok t1 →
      HuMoAudioAttentionControlV4.apply_attention_control t1 ea ab ec cb es
        sb sc ca cc cs = .ok t2 →
      (s2.ctrlHooks = some [] ∧
        ∀ h : Hook, h ∈ s2.active →
          ¬(m.nextId ≤ h.id ∧ h.id < s1.nextId)) ∧
      (t2.suppHooks = some [] ∧
        ∀ h : Hook, h ∈ t2.active →
          ¬(m.nextId ≤ h.id ∧ h.id < t1.nextId)) := by
  intro m s1 s2 t1 t2 ea ab ec cb es sb sc ca cc cs str bs be hwf hinv
    h1 hs2 ht1 ht2
  obtain ⟨a1, c1, i1, _, _, _, _, _, _, hres1⟩ := v4_ok_inv h1
  obtain ⟨_, hres2⟩ := suppress_ok_inv hs2
  obtain ⟨_, hrest1⟩ := suppress_ok_inv ht1
  obtain ⟨a2, c2, i2, _, _, _, _, _, _, hrest2⟩ := v4_ok_inv ht2
  subst hres1
  subst hres2
  subst hrest1
  subst hrest2
  constructor
  · obtain ⟨_, hinv1, hnid1, hact1, hctrl1, _, _⟩ :=
      v4Result_spec m a1 c1 i1 sc
    obtain ⟨_, _, _, hact2, _, hctrl2, _⟩ :=
      suppressResult_spec (HuMoAudioAttentionControlV4.v4Result m a1 c1 i1
        sc) str bs be
    constructor
    · rw [hctrl2, hctrl1]
      rfl
    · intro h hm
      rintro ⟨hge, hlt⟩
      rw [hact2] at hm
      rcases List.mem_append.mp hm with hm | hm
      · obtain ⟨hm1, hc1, _⟩ := suppressClear_mem_active.mp hm
        rw [hact1] at hm1
        rcases List.mem_append.mp hm1 with hm1 | hm1
        · have := hwf h (v4Clear_mem_active.mp hm1).1
          omega
        · have hid : h.id ∈ (mkHooks m.nextId
              (hookLocs m.blocks a1 c1 i1 sc)).map Hook.id :=
            List.mem_map_of_mem Hook.id hm1
          have := hc1 (by rw [hctrl1]; exact hid)
          rw [hinv1, hinv] at this
          cases this
      · obtain ⟨hge2, _, _⟩ := mem_mkHooks hm
        omega
  · obtain ⟨_, hinvT, hnidT, hactT, hsuppT, _, _⟩ :=
      suppressResult_spec m str bs be
    obtain ⟨_, _, _, hact2, _, hsupp2, _⟩ :=
      v4Result_spec (HuMoLipsyncSuppressAttn.suppressResult m str bs be)
        a2 c2 i2 sc
    constructor
    · rw [hsupp2, hsuppT]
      rfl
    · intro h hm
      rintro ⟨hge, hlt⟩
      rw [hact2] at hm
      rcases List.mem_append.mp hm with hm | hm
      · obtain ⟨hm1, _, hsup1⟩ := v4Clear_mem_active.mp hm
        rw [hactT] at hm1
        rcases List.mem_append.mp hm1 with hm1 | hm1
        · have := hwf h (suppressClear_mem_active.mp hm1).1
          omega
        · have hid : h.id ∈ (mkHooks m.nextId
              ((HuMoLipsyncSuppressAttn.suppressPatched m.blocks bs be).map
                (fun bi => ((⟨bi, .audio, .o⟩ : Loc), str)))).map Hook.id :=
            List.mem_map_of_mem Hook.id hm1
          have := hsup1 (by rw [hsuppT]; exact hid)
          rw [hinvT, hinv] at this
          cases this
      · obtain ⟨hge2, _, _⟩ := mem_mkHooks hm
        omega

/-- Witness for C6 on a one-block model whose audio attention exposes `q`
and `o`: in both orders the second procedure zeroes the first's
bookkeeping key and no hook from the first run's id window survives. -/
theorem cross_procedure_clearing_witness :
    ((⟨[⟨some ⟨true, false, false, true⟩, none, none⟩],
        [⟨2, ⟨0, .audio, .o⟩, 2⟩], 3, [], some [], some [2],
        none⟩ : PState).ctrlHooks = some [] ∧
      ∀ h : Hook,
        h ∈ (⟨[⟨some ⟨true, false, false, true⟩, none, none⟩],
          [⟨2, ⟨0, .audio, .o⟩, 2⟩], 3, [], some [], some [2],
          none⟩ : PState).active →
        ¬((0 : ℕ) ≤ h.id ∧ h.id <
          (⟨[⟨some ⟨true, false, false, true⟩, none, none⟩],
            [⟨0, ⟨0, .audio, .q⟩, 2⟩, ⟨1, ⟨0, .audio, .o⟩, 2⟩], 2, [],
            some [0, 1], none, none⟩ : PState).nextId)) ∧
    ((⟨[⟨some ⟨true, false, false, true⟩, none, none⟩],
        [⟨1, ⟨0, .audio, .q⟩, 2⟩, ⟨2, ⟨0, .audio, .o⟩, 2⟩], 3, [],
        some [1, 2], some [], none⟩ : PState).suppHooks = some [] ∧
      ∀ h : Hook,
        h ∈ (⟨[⟨some ⟨true, false, false, true⟩, none, none⟩],
          [⟨1, ⟨0, .audio, .q⟩, 2⟩, ⟨2, ⟨0, .audio, .o⟩, 2⟩], 3, [],
          some [1, 2], some [], none⟩ : PState).active →
        ¬((0 : ℕ) ≤ h.id ∧ h.id <
          (⟨[⟨some ⟨true, false, false, true⟩, none, none⟩],
            [⟨0, ⟨0, .audio, .o⟩, 2⟩], 1, [], none, some [0],
            none⟩ : PState).nextId)) :=
  cross_procedure_clearing
    ⟨[⟨some ⟨true, false, false, true⟩, none, none⟩], [], 0, [],
      none, none, none⟩
    ⟨[⟨some ⟨true, false, false, true⟩, none, none⟩],
      [⟨0, ⟨0, .audio, .q⟩, 2⟩, ⟨1, ⟨0, .audio, .o⟩, 2⟩], 2, [],
      some [0, 1], none, none⟩
    ⟨[⟨some ⟨true, false, false, true⟩, none, none⟩],
      [⟨2, ⟨0, .audio, .o⟩, 2⟩], 3, [], some [], some [2], none⟩
    ⟨[⟨some ⟨true, false, false, true⟩, none, none⟩],
      [⟨0, ⟨0, .audio, .o⟩, 2⟩], 1, [], none, some [0], none⟩
    ⟨[⟨some ⟨true, false, false, true⟩, none, none⟩],
      [⟨1, ⟨0, .audio, .q⟩, 2⟩, ⟨2, ⟨0, .audio, .o⟩, 2⟩], 3, [],
      some [1, 2], some [], none⟩
    true "custom" false "x" false "x"
    ⟨2, 2, 2, 2, 2, 2, 2, 2, 2, 2, 2, 2⟩ "0" "" "" 2 0 0
    (by intro h hm; exact absurd hm (List.not_mem_nil h)) rfl
    (by decide) (by decide) (by decide) (by decide)
